import Mathlib

/-!
Shallow embedding of `pysafe/__init__.py` (class `SAFE`, per SAmple Feature
Elimination).  Numeric data is modelled over `ℚ`; numpy 1-D arrays are
`List ℚ`, 2-D arrays are `List (List ℚ)`.  The wrapped Keras model is a pair
of row-wise functions (`predict`, `predict_classes`).  Fallible Python code
is modelled with `Except PyErr`.  The module imports only
`itertools, KDTree, numpy, train_test_split, maximize, tqdm`; the names
`accuracy_score`, `Sequential`, `Dense` and `random` are unbound at module
level, which is reflected below where those names are used.
-/

/-- A numpy 1-D array of rationals. -/
abbrev Vec : Type := List ℚ

/-- A numpy 2-D array as a list of rows. -/
abbrev Mat : Type := List Vec

/-- Python exceptions that the embedded code can raise. -/
inductive PyErr : Type
  | nameError
  | attributeError
  | valueError
  | typeError
  | indexError
deriving DecidableEq

/-- Elementwise product of two vectors (`np.multiply` on equal-length 1-D
arrays; rows of a broadcast product). -/
def npMultiplyRow (p row : Vec) : Vec := List.zipWith (fun a b => a * b) p row

/-- The zero matrix `np.zeros((r, c))`. -/
def npZeros (r c : Nat) : Mat := List.replicate r (List.replicate c (0 : ℚ))

/-- Maximum of a nonempty list (`max` builtin); `0` on the empty list, which
the embedded code never consults. -/
def listMax : List ℚ → ℚ
  | [] => 0
  | [x] => x
  | x :: y :: t => max x (listMax (y :: t))

/-- Minimum of a nonempty list (`min` builtin); `0` on the empty list, which
the embedded code never consults. -/
def listMin : List ℚ → ℚ
  | [] => 0
  | [x] => x
  | x :: y :: t => min x (listMin (y :: t))

/-- Index of the first occurrence of the maximum (`np.argmax` on a 1-D
array). -/
def argmaxFirst : List ℚ → Nat
  | [] => 0
  | [_] => 0
  | x :: y :: t => if x < listMax (y :: t) then argmaxFirst (y :: t) + 1 else 0

/-- Index of the first occurrence of the minimum (`np.argmin` on a 1-D
array). -/
def argminFirst : List ℚ → Nat
  | [] => 0
  | [_] => 0
  | x :: y :: t => if listMin (y :: t) < x then argminFirst (y :: t) + 1 else 0

/-- Index of the first occurrence of a value in a list (`list.index`); length
of the list if absent, which the embedded code never consults. -/
def listIndex (q : ℚ) : List ℚ → Nat
  | [] => 0
  | x :: xs => if x = q then 0 else listIndex q xs + 1

/-- The list `itertools.product([0, 1], repeat=n)` in iteration order: the
first coordinate varies slowest. -/
def prodBin : Nat → Mat
  | 0 => [[]]
  | n + 1 =>
    (prodBin n).map (fun t => (0 : ℚ) :: t) ++ (prodBin n).map (fun t => (1 : ℚ) :: t)

/-- Flip of a 2-D array along every axis (`np.flip` with no axis argument):
the row order is reversed and each row is reversed. -/
def npFlip (M : Mat) : Mat := (M.map List.reverse).reverse

/-- The combinations array for `combinations_mode` in `{'all', 'genetic'}`:
`np.flip(np.array(list(itertools.product([0, 1], repeat=n))))`. -/
def allCombinations (n : Nat) : Mat := npFlip (prodBin n)

/-- The combinations array for `combinations_mode = 'one-by-one'`: an
`(n+1) × n` matrix of ones with the diagonal entries `(i, i)` for
`i = 1, ..., n-1` set to `0`. -/
def oneByOne (n : Nat) : Mat :=
  (List.range' 1 (n - 1)).foldl
    (fun M i => M.set i ((M.getD i []).set i 0))
    (List.replicate (n + 1) (List.replicate n (1 : ℚ)))

/-- Squared Euclidean distance between two equal-length vectors. -/
def sqDist (a b : Vec) : ℚ := (List.zipWith (fun x y => (x - y) ^ 2) a b).sum

/-- Rounding to the nearest integer, half to even (`ndarray.round`). -/
def npRound (q : ℚ) : ℚ :=
  if (q : ℚ) - (⌊q⌋ : ℚ) < 1 / 2 then (⌊q⌋ : ℚ)
  else if (1 : ℚ) / 2 < q - (⌊q⌋ : ℚ) then (⌊q⌋ : ℚ) + 1
  else if Even ⌊q⌋ then (⌊q⌋ : ℚ) else (⌊q⌋ : ℚ) + 1

/-- Elementwise `ndarray.round` on a 2-D array. -/
def npRoundMat (M : Mat) : Mat := M.map (fun r => r.map npRound)

/-- Column-wise means of a 2-D array (`np.mean(M, 0)`). -/
def colMeans (M : Mat) : Vec :=
  (List.range (M.headD []).length).map
    (fun j => (M.map (fun r => r.getD j 0)).sum / (M.length : ℚ))

/-- The quantity `mean / np.sum(mean) * 100` computed by `get_robustness`. -/
def robustnessVec (M : Mat) : Vec :=
  (colMeans M).map (fun v => v / (colMeans M).sum * 100)

/-- A scanned Keras model: `predict` and `predict_classes` act row-wise and
are applied to each row of a 2-D input. -/
structure Model : Type where
  predict : Vec → ℚ
  predict_classes : Vec → ℚ

/-- The learner stored in `self.learner`: either a fitted sklearn `KDTree`
(which retains the matrix it was built on) or an external Keras model, whose
`predict` maps a 2-D input to a 2-D output. -/
inductive Learner : Type
  | kdtree (data : Mat)
  | keras (predict : Mat → Mat)

/-- Nearest-neighbor lookup `tree.query(q, k=1)` of the external sklearn
`KDTree`, modelled as the index of the first row of the stored matrix at
minimal Euclidean distance from the query. -/
def kdQuery (data : Mat) (q : Vec) : Nat := argminFirst (data.map (sqDist q))

/-- The fields of a `SAFE` object, as assigned in `SAFE.__init__`; fields that
start out as `None` are `Option`s. -/
structure SAFE : Type where
  n_features : Option Nat
  combinations_mode : String
  algorithm : Option String
  combinations : Option Mat
  X : Option Mat
  y_better : Option Mat
  y_worst : Option Mat
  y : Option Mat
  aim : Option String
  model : Option Model
  n_points : Option Nat
  random_state : Option Nat
  n_combinations : Nat
  learner : Option Learner

/-- `SAFE.__init__`. -/
def SAFE.init (combinations_mode : String) (n_combinations : Nat)
    (n_points : Option Nat) (random_state : Option Nat) : SAFE :=
  { n_features := none
    combinations_mode := combinations_mode
    algorithm := none
    combinations := none
    X := none
    y_better := none
    y_worst := none
    y := none
    aim := none
    model := none
    n_points := n_points
    random_state := random_state
    n_combinations := n_combinations
    learner := none }

/-- `SAFE._generate_combination`.  The `'random'` branch raises `NameError`
because the module never imports `random`. -/
def generateCombination (s : SAFE) : Except PyErr SAFE :=
  if s.combinations_mode = "all" ∨ s.combinations_mode = "genetic" then
    .ok { s with combinations := some (allCombinations (s.n_features.getD 0)) }
  else if s.combinations_mode = "one-by-one" then
    .ok { s with combinations := some (oneByOne (s.n_features.getD 0)) }
  else if s.combinations_mode = "random" then
    .error .nameError
  else
    .ok s

/-- Absolute prediction error of a masked sample:
`abs(model.predict(np.array([np.multiply(data, combination)])) - label)`. -/
def absLoss (mp : Vec → ℚ) (data : Vec) (label : ℚ) (comb : Vec) : ℚ :=
  |mp (npMultiplyRow data comb) - label|

/-- Candidate combinations of one outer iteration of the forward-selection
search: every copy of `best` with one of its nonzero entries set to `0`, in
feature order. -/
def fsCandidates (best : Vec) : List Vec :=
  (List.range best.length).filterMap
    (fun i => if best.getD i 0 ≠ 0 then some (best.set i 0) else none)

/-- Loop of `SAFE.__combination_search_forward_selection_min`; the fuel is
the `range(self.n_features)` bound.  `min` of an empty candidate list would
raise `ValueError`. -/
def fsMinAux (mp : Vec → ℚ) (data : Vec) (label : ℚ) :
    Nat → Vec → ℚ → Except PyErr Vec
  | 0, best, _ => .ok best
  | fuel + 1, best, bestLoss =>
    let cands := fsCandidates best
    if cands = [] then .error .valueError
    else
      let losses := cands.map (absLoss mp data label)
      let current := listMin losses
      if current < bestLoss then
        fsMinAux mp data label fuel (cands.getD (listIndex current losses) []) current
      else
        .ok best

/-- `SAFE.__combination_search_forward_selection_min`. -/
def fsMin (mp : Vec → ℚ) (data : Vec) (label : ℚ) (n : Nat) : Except PyErr Vec :=
  fsMinAux mp data label n (List.replicate n 1)
    (absLoss mp data label (List.replicate n 1))

/-- Loop of `SAFE.__combination_search_forward_selection_max`. -/
def fsMaxAux (mp : Vec → ℚ) (data : Vec) (label : ℚ) :
    Nat → Vec → ℚ → Except PyErr Vec
  | 0, best, _ => .ok best
  | fuel + 1, best, bestLoss =>
    let cands := fsCandidates best
    if cands = [] then .error .valueError
    else
      let losses := cands.map (absLoss mp data label)
      let current := listMax losses
      if bestLoss < current then
        fsMaxAux mp data label fuel (cands.getD (listIndex current losses) []) current
      else
        .ok best

/-- `SAFE.__combination_search_forward_selection_max`. -/
def fsMax (mp : Vec → ℚ) (data : Vec) (label : ℚ) (n : Nat) : Except PyErr Vec :=
  fsMaxAux mp data label n (List.replicate n 1)
    (absLoss mp data label (List.replicate n 1))

/-- One column of the loss matrix:
`abs(self.model.predict(np.multiply(p, self.X)).flatten() - y)`. -/
def lossCol (mp : Vec → ℚ) (p : Vec) (X : Mat) (y : Vec) : Vec :=
  List.zipWith (fun row yi => |mp (npMultiplyRow p row) - yi|) X y

/-- Column assignment `losses[:, j] = c`; numpy raises `ValueError` when the
column length does not match the number of rows. -/
def setCol (M : Mat) (j : Nat) (c : Vec) : Except PyErr Mat :=
  if c.length = M.length then
    .ok (List.zipWith (fun row v => row.set j v) M c)
  else
    .error .valueError

/-- The loss-matrix loop of `scan`:
`for index, p in enumerate(self.combinations): losses[:, index] = ...`.
The subtraction `predict(...).flatten() - y` broadcasts only when the
lengths agree. -/
def fillLosses (mp : Vec → ℚ) (X : Mat) (y : Vec) :
    Mat → Nat → List Vec → Except PyErr Mat
  | M, _, [] => .ok M
  | M, j, p :: ps =>
    if y.length = X.length then
      match setCol M j (lossCol mp p X y) with
      | .ok M' => fillLosses mp X y M' (j + 1) ps
      | .error e => .error e
    else
      .error .valueError

/-- The `train_test_split` step of `scan`: when `n_points` is set the data is
subsampled by the external `sklearn.model_selection.train_test_split`, here
an arbitrary function `split`; otherwise the data is untouched. -/
def splitData (split : Mat → Vec → ℚ → Option Nat → Mat × Vec)
    (nPoints : Option Nat) (rs : Option Nat) (X : Mat) (y : Vec) : Mat × Vec :=
  match nPoints with
  | some k => split X y ((k : ℚ) / (X.length : ℚ)) rs
  | none => (X, y)

/-- Row-wise overwrite `target[i, :] = new[i]` for `i < len(new)`; numpy
raises `IndexError` when a row index is out of range. -/
def overwriteRows (init new : Mat) : Except PyErr Mat :=
  if new.length ≤ init.length then
    .ok ((List.range init.length).map
      (fun i => if i < new.length then new.getD i [] else init.getD i []))
  else
    .error .indexError

/-- The state of the `SAFE` object just before `_generate_combination` runs
inside `scan`: `n_features`, `X`, `y_better` and `y_worst` have been
assigned. -/
def scanPre (split : Mat → Vec → ℚ → Option Nat → Mat × Vec)
    (s : SAFE) (X : Mat) (y : Vec) : SAFE :=
  let rows := X.length
  let nf := (X.headD []).length
  let Xy := splitData split s.n_points s.random_state X y
  { s with
    n_features := some nf
    X := some Xy.1
    y_better := some (npZeros rows nf)
    y_worst := some (npZeros rows nf) }

/-- The `'genetic'` branch of `scan`: its loop body resolves the unbound name
`y_train`, so it raises `NameError` as soon as the loop runs. -/
def scanGenetic (s₂ : SAFE) (model : Model) (aim : String) (Xs : Mat) :
    Except PyErr SAFE :=
  if Xs = [] then .ok { s₂ with model := some model, aim := some aim }
  else .error .nameError

/-- The `'forward_selection'` branch of `scan`: one greedy search per sample,
written into `y_better` (aim `'better'`) or `y_worst` (otherwise). -/
def scanFS (s₂ : SAFE) (model : Model) (aim : String) (Xs : Mat) (ys : Vec)
    (rows nf : Nat) : Except PyErr SAFE :=
  if aim = "better" then
    if Xs.length ≤ ys.length then
      match (List.zip Xs ys).mapM (fun dz => fsMin model.predict dz.1 dz.2 nf) with
      | .error e => .error e
      | .ok rowsFS =>
        match overwriteRows (npZeros rows nf) rowsFS with
        | .error e => .error e
        | .ok yb =>
          .ok { s₂ with model := some model, aim := some aim, y_better := some yb }
    else .error .indexError
  else
    if Xs.length ≤ ys.length then
      match (List.zip Xs ys).mapM (fun dz => fsMax model.predict dz.1 dz.2 nf) with
      | .error e => .error e
      | .ok rowsFS =>
        match overwriteRows (npZeros rows nf) rowsFS with
        | .error e => .error e
        | .ok yw =>
          .ok { s₂ with model := some model, aim := some aim, y_worst := some yw }
    else .error .indexError

/-- The brute-force branch of `scan` run in every remaining mode: one loss
column per stored combination, then a row-wise argmax into `y_worst` and
argmin into `y_better`.  When `self.combinations` is still `None`, reading
its `shape` raises `AttributeError`; `argmax(axis=1)` of a matrix with rows
but no columns raises `ValueError`. -/
def scanBrute (s₂ : SAFE) (model : Model) (aim : String) (Xs : Mat) (ys : Vec)
    (rows : Nat) : Except PyErr SAFE :=
  match s₂.combinations with
  | none => .error .attributeError
  | some combs =>
    match fillLosses model.predict Xs ys (npZeros rows combs.length) 0 combs with
    | .error e => .error e
    | .ok losses =>
      if combs.length = 0 ∧ rows ≠ 0 then .error .valueError
      else
        .ok { s₂ with
          model := some model
          aim := some aim
          y_worst := some (losses.map (fun lr => combs.getD (argmaxFirst lr) []))
          y_better := some (losses.map (fun lr => combs.getD (argminFirst lr) [])) }

/-- `SAFE.scan`. -/
def scan (split : Mat → Vec → ℚ → Option Nat → Mat × Vec)
    (s : SAFE) (model : Model) (X : Mat) (y : Vec) (aim : String) :
    Except PyErr SAFE :=
  match generateCombination (scanPre split s X y) with
  | .error e => .error e
  | .ok s₂ =>
    if s₂.combinations_mode = "genetic" then
      scanGenetic s₂ model aim (splitData split s.n_points s.random_state X y).1
    else if s₂.combinations_mode = "forward_selection" then
      scanFS s₂ model aim (splitData split s.n_points s.random_state X y).1
        (splitData split s.n_points s.random_state X y).2
        X.length (X.headD []).length
    else
      scanBrute s₂ model aim (splitData split s.n_points s.random_state X y).1
        (splitData split s.n_points s.random_state X y).2 X.length

/-- The line `self.aim = aim if not self.aim else self.aim` of `SAFE.learn`:
an empty or `None` stored aim is falsy and is replaced by the argument. -/
def learnAim (stored : Option String) (aim : String) : String :=
  match stored with
  | none => aim
  | some a => if a = "" then aim else a

/-- `SAFE.learn`.  External Keras training (`learner.fit`) is the
uninterpreted function `fit`; building the internal `Sequential` network
raises `NameError` because `Sequential` is never imported; `KDTree(None)`
raises `ValueError`. -/
def learn (fit : Learner → Learner) (s : SAFE) (algorithm : String)
    (aim : String) (learner : Option Learner) (train : Bool) :
    Except PyErr SAFE :=
  let s₁ := { s with
    aim := some (learnAim s.aim aim)
    y := if learnAim s.aim aim = "better" then s.y_better else s.y_worst
    algorithm := some algorithm
    learner := learner }
  if algorithm = "knn" then
    match learner with
    | none =>
      match s₁.X with
      | some xm => .ok { s₁ with learner := some (.kdtree xm) }
      | none => .error .valueError
    | some _ => .ok s₁
  else if algorithm = "ann" then
    match learner with
    | none => .error .nameError
    | some l => if train then .ok { s₁ with learner := some (fit l) } else .ok s₁
  else
    .ok s₁

/-- `SAFE.get_selection`.  Returns `some` of the selection matrix in the
`'knn'` and `'ann'` branches, and `none` (Python `None`) when neither
algorithm is set.  With a `'knn'` algorithm a Keras learner has no `query`
method, and with `self.y` still `None` the indexing `self.y[...]` fails. -/
def get_selection (s : SAFE) (data : Mat) : Except PyErr (Option Mat) :=
  if s.algorithm = some "knn" then
    match s.learner with
    | some (.kdtree t) =>
      match s.y with
      | some ys => .ok (some (data.map (fun q => ys.getD (kdQuery t q) [])))
      | none => .error .typeError
    | some (.keras _) => .error .attributeError
    | none => .error .attributeError
  else if s.algorithm = some "ann" then
    match s.learner with
    | some (.keras f) => .ok (some (npRoundMat (f data)))
    | _ => .error .attributeError
  else
    .ok none

/-- `SAFE.clean_data`: `np.multiply(data, self.get_selection(data))`;
multiplying by `None` raises `TypeError`. -/
def clean_data (s : SAFE) (data : Mat) : Except PyErr Mat :=
  match get_selection s data with
  | .error e => .error e
  | .ok none => .error .typeError
  | .ok (some sel) => .ok (List.zipWith npMultiplyRow data sel)

/-- `SAFE.get_robustness`.  The two result dictionaries are the `Sum`
constructors. -/
def get_robustness (s : SAFE) (data : Option Mat) :
    Except PyErr (Sum Vec (Vec × Vec)) :=
  match data with
  | some d =>
    match get_selection s d with
    | .error e => .error e
    | .ok none => .error .typeError
    | .ok (some yM) => .ok (.inl (robustnessVec yM))
  | none =>
    match s.y_better, s.y_worst with
    | some yb, some yw => .ok (.inr (robustnessVec yb, robustnessVec yw))
    | _, _ => .error .typeError

/-- `SAFE._get_clean`: predictions of the model on the data and on the
cleaned data; `self.model` may still be `None`. -/
def SAFE.get_clean (s : SAFE) (data : Mat) : Except PyErr (Vec × Vec) :=
  match s.model with
  | none => .error .attributeError
  | some m =>
    match clean_data s data with
    | .error e => .error e
    | .ok cd => .ok (data.map m.predict_classes, cd.map m.predict_classes)

/-- The binding of the name `accuracy_score` in the module namespace: the
module never imports it, so the name is unbound. -/
def moduleAccuracyScore : Option (Vec → Vec → ℚ) := none

/-- Labels passed to `get_accuracy`: either a 1-D binary label vector or a
2-D one-hot matrix. -/
abbrev Labels : Type := Sum Vec Mat

/-- The `try` block of `get_accuracy`: resolving `accuracy_score` fails when
the name is unbound, and `np.argmax(labels, 1)` fails on 1-D labels. -/
def tryMulticlass (acc : Option (Vec → Vec → ℚ)) (labels : Labels)
    (orig cleaned : Vec) : Except PyErr (ℚ × ℚ) :=
  match acc with
  | none => .error .nameError
  | some f =>
    match labels with
    | .inl _ => .error .valueError
    | .inr M =>
      .ok (f (M.map (fun r => (argmaxFirst r : ℚ))) orig,
           f (M.map (fun r => (argmaxFirst r : ℚ))) cleaned)

/-- The `except` block of `get_accuracy`: binary labels are used as they
are; a 2-D label array does not match 1-D predictions. -/
def binaryAcc (acc : Option (Vec → Vec → ℚ)) (labels : Labels)
    (orig cleaned : Vec) : Except PyErr (ℚ × ℚ) :=
  match acc with
  | none => .error .nameError
  | some f =>
    match labels with
    | .inl v => .ok (f v orig, f v cleaned)
    | .inr _ => .error .valueError

/-- `SAFE.get_accuracy`.  The first component of the result is the state of
the object after the call (no attribute is assigned); the second is the pair
of reported accuracies, or the exception that escapes. -/
def get_accuracy (acc : Option (Vec → Vec → ℚ)) (s : SAFE) (data : Mat)
    (labels : Labels) : SAFE × Except PyErr (ℚ × ℚ) :=
  (s,
    match SAFE.get_clean s data with
    | .error e => .error e
    | .ok oc =>
      match tryMulticlass acc labels oc.1 oc.2 with
      | .ok r => .ok r
      | .error _ => binaryAcc acc labels oc.1 oc.2)

/-- Whether an embedded computation raised an exception. -/
def exceptFailed {α : Type} : Except PyErr α → Bool
  | .error _ => true
  | .ok _ => false

/-- `SAFE.get_behaviour`: predictions before and after cleaning. -/
def get_behaviour (s : SAFE) (data : Mat) : Except PyErr (Vec × Vec) :=
  match s.model with
  | none => .error .attributeError
  | some m =>
    match clean_data s data with
    | .error e => .error e
    | .ok cd => .ok (data.map m.predict, cd.map m.predict)

/-- The attribute names resolvable on a `SAFE` instance: the fields assigned
in `__init__` and the methods of the class (private methods under their
mangled names). -/
def SAFE.attrs : List String :=
  ["n_features", "combinations_mode", "algorithm", "combinations", "tree",
   "X", "y_better", "y_worst", "y", "aim", "model", "n_points",
   "random_state", "n_combinations", "learner",
   "scan", "learn", "get_selection", "get_robustness",
   "_generate_combination", "clean_data",
   "_SAFE__combination_search_genetic",
   "_SAFE__combination_search_forward_selection_min",
   "_SAFE__combination_search_forward_selection_max",
   "_ann", "_get_clean", "get_accuracy", "get_behaviour", "get_candidates"]

/-- `SAFE.get_candidates`: its first statement resolves `self.behaviour`,
which is not an attribute of the class (the comparison method is named
`get_behaviour`), so the lookup raises `AttributeError` and the rest of the
body is unreachable. -/
def get_candidates (s : SAFE) (data : Mat) (threshold : ℚ) :
    Except PyErr (List Nat) :=
  if "behaviour" ∈ SAFE.attrs then
    .ok []
  else
    .error .attributeError

/-- A vector is a binary mask. -/
def binaryVec (v : Vec) : Prop := ∀ x ∈ v, x = 0 ∨ x = 1

/-- Every row of a matrix is a binary mask. -/
def binaryMat (M : Mat) : Prop := ∀ r ∈ M, binaryVec r

/-- Number of nonzero entries of a vector. -/
def nonzeroCount (v : Vec) : Nat := v.countP (fun x => decide (x ≠ 0))

/-- Loss row of sample `i` in the brute-force branch of `scan`: one entry
`|model.predict(p * X)[i] - y[i]|` per combination `p`. -/
def scanLossRow (model : Model) (combs : Mat) (Xs : Mat) (ys : Vec) (i : Nat) : Vec :=
  combs.map (fun p => |model.predict (npMultiplyRow p (Xs.getD i [])) - ys.getD i 0|)

/-- Example model for concrete instantiations: both prediction methods sum
the features of a sample. -/
def exModel : Model := { predict := fun v => v.sum, predict_classes := fun v => v.sum }

/-- Example external splitter that keeps the data unchanged. -/
def exSplitId : Mat → Vec → ℚ → Option Nat → Mat × Vec := fun X y _ _ => (X, y)

/-- Example external splitter that discards the data. -/
def exSplitNil : Mat → Vec → ℚ → Option Nat → Mat × Vec := fun _ _ _ _ => ([], [])

/-- Expected state after scanning `X = [[1],[2]]`, `y = [0,0]` with mode
`'all'` and the summing model. -/
def exScanState : SAFE :=
  { SAFE.init "all" 10 none none with
    n_features := some 1
    X := some [[1],[2]]
    combinations := some [[1],[0]]
    model := some exModel
    aim := some "worst"
    y_worst := some [[1],[1]]
    y_better := some [[0],[0]] }

/-- Base state for the nearest-neighbor example: scanned data and worst-case
masks already stored. -/
def exKnnBase : SAFE :=
  { SAFE.init "all" 10 none none with
    X := some [[0],[1]]
    y_worst := some [[1],[0]] }

/-- State after `learn(algorithm='knn')` on `exKnnBase`. -/
def exKnnLearned : SAFE :=
  { exKnnBase with
    aim := some "worst"
    y := some [[1],[0]]
    algorithm := some "knn"
    learner := some (.kdtree [[0],[1]]) }

/-- Learned example state with a stored model, for accuracy computations. -/
def exAccState : SAFE := { exKnnLearned with model := some exModel }

/-- State whose `'ann'` learner is an external Keras model with an output
outside the unit interval. -/
def exAnnState : SAFE :=
  { SAFE.init "all" 10 none none with
    aim := some "worst"
    algorithm := some "ann"
    learner := some (.keras (fun _ => [[(73 : ℚ) / 10]])) }

/-- State whose `'ann'` learner is an external Keras model with outputs in
the unit interval. -/
def exAnnHalf : SAFE :=
  { SAFE.init "all" 10 none none with
    algorithm := some "ann"
    learner := some (.keras (fun _ => [[(1 : ℚ) / 2]])) }

/-- State with algorithm `'knn'` set but no learner stored. -/
def exBadState : SAFE :=
  { SAFE.init "all" 10 none none with algorithm := some "knn" }

theorem getD_set_self {α : Type} (l : List α) (i : Nat) (v d : α)
    (h : i < l.length) : (l.set i v).getD i d = v := by
  rw [List.getD_eq_getElem _ _ (by simpa using h)]
  exact List.getElem_set_self (by simpa using h)

theorem getD_set_ne {α : Type} (l : List α) (i j : Nat) (v d : α)
    (h : i ≠ j) : (l.set i v).getD j d = l.getD j d := by
  by_cases hj : j < l.length
  · rw [List.getD_eq_getElem _ _ (by simpa using hj),
      List.getD_eq_getElem _ _ hj]
    exact List.getElem_set_ne h _
  · rw [List.getD_eq_default _ _ (by simpa using hj),
      List.getD_eq_default _ _ (by omega)]

theorem getD_zipWith {α β γ : Type} (f : α → β → γ) (a : List α) (b : List β)
    (i : Nat) (d : γ) (da : α) (db : β)
    (ha : i < a.length) (hb : i < b.length) :
    (List.zipWith f a b).getD i d = f (a.getD i da) (b.getD i db) := by
  rw [List.getD_eq_getElem _ _ (by simp; omega),
    List.getD_eq_getElem _ _ ha, List.getD_eq_getElem _ _ hb]
  exact List.getElem_zipWith

theorem getD_map {α β : Type} (f : α → β) (l : List α) (i : Nat) (d : β)
    (d' : α) (h : i < l.length) :
    (l.map f).getD i d = f (l.getD i d') := by
  rw [List.getD_eq_getElem _ _ (by simpa using h),
    List.getD_eq_getElem _ _ h]
  exact List.getElem_map f

theorem getD_mem {α : Type} (l : List α) (i : Nat) (d : α)
    (h : i < l.length) : l.getD i d ∈ l := by
  rw [List.getD_eq_getElem _ _ h]
  exact List.getElem_mem h

theorem listMax_ge (l : List ℚ) : ∀ j, j < l.length → l.getD j 0 ≤ listMax l := by
  induction l with
  | nil => intro j hj; simp at hj
  | cons x t ih =>
    cases t with
    | nil =>
      intro j hj
      have hj0 : j = 0 := by simpa using Nat.lt_one_iff.mp (by simpa using hj)
      subst hj0; simp [listMax]
    | cons y t2 =>
      intro j hj
      cases j with
      | zero => simp [listMax]
      | succ j' =>
        have h := ih j' (by simpa using hj)
        simp only [List.getD_cons_succ, listMax]
        exact h.trans (le_max_right _ _)

theorem argmaxFirst_lt (l : List ℚ) (h : l ≠ []) : argmaxFirst l < l.length := by
  induction l with
  | nil => exact absurd rfl h
  | cons x t ih =>
    cases t with
    | nil => simp [argmaxFirst]
    | cons y t2 =>
      simp only [argmaxFirst]
      by_cases hc : x < listMax (y :: t2)
      · simp only [if_pos hc, List.length_cons]
        have := ih (by simp)
        simpa using Nat.succ_lt_succ (by simpa using this)
      · simp [if_neg hc]

theorem getD_argmaxFirst (l : List ℚ) (h : l ≠ []) :
    l.getD (argmaxFirst l) 0 = listMax l := by
  induction l with
  | nil => exact absurd rfl h
  | cons x t ih =>
    cases t with
    | nil => simp [argmaxFirst, listMax]
    | cons y t2 =>
      simp only [argmaxFirst, listMax]
      by_cases hc : x < listMax (y :: t2)
      · rw [if_pos hc]
        simp only [List.getD_cons_succ]
        rw [ih (by simp), max_eq_right (le_of_lt hc)]
      · rw [if_neg hc]
        simp only [List.getD_cons_zero]
        rw [max_eq_left (not_lt.mp hc)]

theorem argmaxFirst_first (l : List ℚ) :
    ∀ j, j < argmaxFirst l → l.getD j 0 < listMax l := by
  induction l with
  | nil => intro j hj; simp [argmaxFirst] at hj
  | cons x t ih =>
    cases t with
    | nil => intro j hj; simp [argmaxFirst] at hj
    | cons y t2 =>
      intro j hj
      simp only [argmaxFirst] at hj
      by_cases hc : x < listMax (y :: t2)
      · rw [if_pos hc] at hj
        have hmax : listMax (x :: y :: t2) = listMax (y :: t2) := by
          simp only [listMax]; exact max_eq_right (le_of_lt hc)
        cases j with
        | zero => simpa [hmax] using hc
        | succ j' =>
          have := ih j' (by omega)
          simpa [hmax] using this
      · rw [if_neg hc] at hj; omega

theorem listMin_le (l : List ℚ) : ∀ j, j < l.length → listMin l ≤ l.getD j 0 := by
  induction l with
  | nil => intro j hj; simp at hj
  | cons x t ih =>
    cases t with
    | nil =>
      intro j hj
      have hj0 : j = 0 := by simpa using Nat.lt_one_iff.mp (by simpa using hj)
      subst hj0; simp [listMin]
    | cons y t2 =>
      intro j hj
      cases j with
      | zero => simp [listMin]
      | succ j' =>
        have h := ih j' (by simpa using hj)
        simp only [List.getD_cons_succ, listMin]
        exact (min_le_right _ _).trans h

theorem argminFirst_lt (l : List ℚ) (h : l ≠ []) : argminFirst l < l.length := by
  induction l with
  | nil => exact absurd rfl h
  | cons x t ih =>
    cases t with
    | nil => simp [argminFirst]
    | cons y t2 =>
      simp only [argminFirst]
      by_cases hc : listMin (y :: t2) < x
      · simp only [if_pos hc, List.length_cons]
        have := ih (by simp)
        simpa using Nat.succ_lt_succ (by simpa using this)
      · simp [if_neg hc]

theorem getD_argminFirst (l : List ℚ) (h : l ≠ []) :
    l.getD (argminFirst l) 0 = listMin l := by
  induction l with
  | nil => exact absurd rfl h
  | cons x t ih =>
    cases t with
    | nil => simp [argminFirst, listMin]
    | cons y t2 =>
      simp only [argminFirst, listMin]
      by_cases hc : listMin (y :: t2) < x
      · rw [if_pos hc]
        simp only [List.getD_cons_succ]
        rw [ih (by simp), min_eq_right (le_of_lt hc)]
      · rw [if_neg hc]
        simp only [List.getD_cons_zero]
        rw [min_eq_left (not_lt.mp hc)]

theorem argminFirst_first (l : List ℚ) :
    ∀ j, j < argminFirst l → listMin l < l.getD j 0 := by
  induction l with
  | nil => intro j hj; simp [argminFirst] at hj
  | cons x t ih =>
    cases t with
    | nil => intro j hj; simp [argminFirst] at hj
    | cons y t2 =>
      intro j hj
      simp only [argminFirst] at hj
      by_cases hc : listMin (y :: t2) < x
      · rw [if_pos hc] at hj
        have hmin : listMin (x :: y :: t2) = listMin (y :: t2) := by
          simp only [listMin]; exact min_eq_right (le_of_lt hc)
        cases j with
        | zero => simpa [hmin] using hc
        | succ j' =>
          have := ih j' (by omega)
          simpa [hmin] using this
      · rw [if_neg hc] at hj; omega

theorem prodBin_length (n : Nat) : (prodBin n).length = 2 ^ n := by
  induction n with
  | zero => simp [prodBin]
  | succ n ih => simp [prodBin, ih, pow_succ]; ring

theorem mem_prodBin (n : Nat) (v : Vec) :
    v ∈ prodBin n ↔ v.length = n ∧ binaryVec v := by
  induction n generalizing v with
  | zero =>
    simp only [prodBin, List.mem_singleton]
    constructor
    · rintro rfl; exact ⟨rfl, by intro x hx; simp at hx⟩
    · rintro ⟨hl, _⟩; exact List.length_eq_zero.mp hl
  | succ n ih =>
    simp only [prodBin, List.mem_append, List.mem_map]
    constructor
    · rintro (⟨t, ht, rfl⟩ | ⟨t, ht, rfl⟩)
      · obtain ⟨hl, hb⟩ := (ih t).mp ht
        refine ⟨by simp [hl], ?_⟩
        intro x hx
        rcases List.mem_cons.mp hx with rfl | hx
        · exact Or.inl rfl
        · exact hb x hx
      · obtain ⟨hl, hb⟩ := (ih t).mp ht
        refine ⟨by simp [hl], ?_⟩
        intro x hx
        rcases List.mem_cons.mp hx with rfl | hx
        · exact Or.inr rfl
        · exact hb x hx
    · rintro ⟨hl, hb⟩
      cases v with
      | nil => simp at hl
      | cons x t =>
        have hxt : x = 0 ∨ x = 1 := hb x (List.mem_cons_self _ _)
        have htm : t ∈ prodBin n :=
          (ih t).mpr ⟨by simpa using hl, fun z hz => hb z (List.mem_cons_of_mem _ hz)⟩
        rcases hxt with rfl | rfl
        · exact Or.inl ⟨t, htm, rfl⟩
        · exact Or.inr ⟨t, htm, rfl⟩

theorem prodBin_nodup (n : Nat) : (prodBin n).Nodup := by
  induction n with
  | zero => simp [prodBin]
  | succ n ih =>
    refine List.Nodup.append ?_ ?_ ?_
    · exact ih.map (fun a b h => by simpa using h)
    · exact ih.map (fun a b h => by simpa using h)
    · intro v hv hv'
      obtain ⟨t, _, rfl⟩ := List.mem_map.mp hv
      obtain ⟨t', _, he⟩ := List.mem_map.mp hv'
      have : (1 : ℚ) = 0 := (List.cons.injEq _ _ _ _ ▸ he) |>.1
      norm_num at this

theorem allCombinations_length (n : Nat) :
    (allCombinations n).length = 2 ^ n := by
  simp [allCombinations, npFlip, prodBin_length]

theorem allCombinations_nodup (n : Nat) : (allCombinations n).Nodup := by
  unfold allCombinations npFlip
  rw [List.nodup_reverse]
  exact (prodBin_nodup n).map List.reverse_injective

theorem mem_allCombinations (n : Nat) (v : Vec) :
    v ∈ allCombinations n ↔ v.length = n ∧ binaryVec v := by
  unfold allCombinations npFlip
  rw [List.mem_reverse, List.mem_map]
  constructor
  · rintro ⟨u, hu, rfl⟩
    obtain ⟨hl, hb⟩ := (mem_prodBin n u).mp hu
    exact ⟨by simpa using hl, fun x hx => hb x (List.mem_reverse.mp hx)⟩
  · rintro ⟨hl, hb⟩
    refine ⟨v.reverse, (mem_prodBin n v.reverse).mpr
      ⟨by simpa using hl, fun x hx => hb x (List.mem_reverse.mp hx)⟩, ?_⟩
    exact List.reverse_reverse v

theorem oneByOne_fold_untouched (step : Mat → Nat → Mat)
    (hstep : step = fun M i => M.set i ((M.getD i []).set i 0)) :
    ∀ (k : Nat) (b : Nat) (M : Mat) (j : Nat), j < b →
      ((List.range' b k).foldl step M).getD j [] = M.getD j [] := by
  intro k
  induction k with
  | zero => intro b M j _; simp
  | succ k ih =>
    intro b M j hj
    rw [List.range'_succ, List.foldl_cons]
    rw [ih (b + 1) (step M b) j (by omega), hstep]
    exact getD_set_ne M b j _ [] (by omega)

theorem oneByOne_fold_touched (step : Mat → Nat → Mat)
    (hstep : step = fun M i => M.set i ((M.getD i []).set i 0)) :
    ∀ (k : Nat) (b : Nat) (M : Mat) (j : Nat),
      b ≤ j → j < b + k → j < M.length →
      ((List.range' b k).foldl step M).getD j [] = (M.getD j []).set j 0 := by
  intro k
  induction k with
  | zero => intro b M j h1 h2; omega
  | succ k ih =>
    intro b M j h1 h2 hlen
    rw [List.range'_succ, List.foldl_cons]
    by_cases hjb : j = b
    · subst hjb
      rw [oneByOne_fold_untouched step hstep k (j + 1) (step M j) j (by omega), hstep]
      exact getD_set_self M j _ [] hlen
    · rw [ih (b + 1) (step M b) j (by omega) (by omega)
        (by rw [hstep]; simpa using hlen), hstep]
      rw [getD_set_ne M b j _ [] (by omega)]

theorem oneByOne_length (n : Nat) : (oneByOne n).length = n + 1 := by
  unfold oneByOne
  have h : ∀ (k b : Nat) (M : Mat),
      ((List.range' b k).foldl (fun M i => M.set i ((M.getD i []).set i 0)) M).length
        = M.length := by
    intro k
    induction k with
    | zero => intro b M; simp
    | succ k ih =>
      intro b M
      rw [List.range'_succ, List.foldl_cons, ih]
      simp
  rw [h]; simp

theorem oneByOne_row (n j : Nat) (hj : j ≤ n) :
    (oneByOne n).getD j [] =
      if 1 ≤ j ∧ j ≤ n - 1 then (List.replicate n (1 : ℚ)).set j 0
      else List.replicate n (1 : ℚ) := by
  unfold oneByOne
  by_cases hcase : 1 ≤ j ∧ j ≤ n - 1
  · rw [if_pos hcase]
    rw [oneByOne_fold_touched _ rfl (n - 1) 1 _ j hcase.1 (by omega) (by simp; omega)]
    rw [List.getD_eq_getElem _ _ (by simp; omega)]
    rw [List.getElem_replicate]
  · rw [if_neg hcase]
    rcases Nat.lt_or_ge j 1 with h1 | h1
    · rw [oneByOne_fold_untouched _ rfl (n - 1) 1 _ j h1]
      rw [List.getD_eq_getElem _ _ (by simp; omega)]
      rw [List.getElem_replicate]
    · have hjn : j = n := by omega
      rw [hjn]
      have hfold : ∀ (k b : Nat) (M : Mat), b + k ≤ n →
          ((List.range' b k).foldl (fun M i => M.set i ((M.getD i []).set i 0)) M).getD n []
            = M.getD n [] := by
        intro k
        induction k with
        | zero => intro b M _; simp
        | succ k ih =>
          intro b M hb
          rw [List.range'_succ, List.foldl_cons, ih (b + 1) _ (by omega)]
          exact getD_set_ne M b n _ [] (by omega)
      rw [hfold (n - 1) 1 _ (by omega)]
      rw [List.getD_eq_getElem _ _ (by simp)]
      rw [List.getElem_replicate]

theorem fillLosses_spec (mp : Vec → ℚ) (X : Mat) (y : Vec) (nC : Nat) :
    ∀ (ps : List Vec) (j : Nat) (M L : Mat),
      (∀ i, i < M.length → (M.getD i []).length = nC) →
      j + ps.length ≤ nC →
      fillLosses mp X y M j ps = .ok L →
      L.length = M.length ∧
      (∀ i, i < L.length → (L.getD i []).length = nC) ∧
      (∀ i, i < M.length → ∀ t, t < ps.length →
        (L.getD i []).getD (j + t) 0 = (lossCol mp (ps.getD t []) X y).getD i 0) ∧
      (∀ i, i < M.length → ∀ k, k < j →
        (L.getD i []).getD k 0 = (M.getD i []).getD k 0) ∧
      (ps ≠ [] → X.length = M.length ∧ y.length = X.length) := by
  intro ps
  induction ps with
  | nil =>
    intro j M L hrows _ hok
    simp only [fillLosses] at hok
    cases hok
    refine ⟨rfl, hrows, ?_, ?_, ?_⟩
    · intro i _ t ht; simp at ht
    · intro i _ k _; rfl
    · intro hne; exact absurd rfl hne
  | cons p ps' ih =>
    intro j M L hrows hbound hok
    simp only [fillLosses] at hok
    by_cases hyl : y.length = X.length
    · rw [if_pos hyl] at hok
      unfold setCol at hok
      by_cases hc : (lossCol mp p X y).length = M.length
      · rw [if_pos hc] at hok
        set c := lossCol mp p X y with hcdef
        set M' := List.zipWith (fun row v => row.set j v) M c with hM'
        have hM'len : M'.length = M.length := by
          rw [hM']; simp [List.length_zipWith, hc]
        have hM'row : ∀ i, i < M.length →
            M'.getD i [] = (M.getD i []).set j (c.getD i 0) := by
          intro i hi
          rw [hM']
          exact getD_zipWith _ M c i [] [] 0 hi (by omega)
        have hM'rows : ∀ i, i < M'.length → (M'.getD i []).length = nC := by
          intro i hi
          rw [hM'len] at hi
          rw [hM'row i hi, List.length_set]
          exact hrows i hi
        obtain ⟨h1, h2, h3, h4, h5⟩ := ih (j + 1) M' L hM'rows (by simp at hbound ⊢; omega) hok
        have hXlen : X.length = M.length := by
          have : c.length = min X.length y.length := by
            rw [hcdef]; simp [lossCol, List.length_zipWith]
          omega
        refine ⟨by rw [h1, hM'len], h2, ?_, ?_, ?_⟩
        · intro i hi t ht
          cases t with
          | zero =>
            have hLrow : (L.getD i []).getD j 0 = (M'.getD i []).getD j 0 :=
              h4 i (by omega) j (by omega)
            rw [Nat.add_zero, hLrow, hM'row i hi]
            rw [getD_set_self _ j _ 0 (by rw [hrows i hi]; omega)]
            rfl
          | succ t' =>
            have := h3 i (by omega) t' (by simpa using Nat.lt_of_succ_lt_succ (by simpa using ht))
            have harith : j + (t' + 1) = j + 1 + t' := by omega
            rw [harith, this]
            rfl
        · intro i hi k hk
          have := h4 i (by omega) k (by omega)
          rw [this, hM'row i hi]
          exact getD_set_ne _ j k _ 0 (by omega)
        · intro _; exact ⟨hXlen, hyl⟩
      · rw [if_neg hc] at hok; cases hok
    · rw [if_neg hyl] at hok; cases hok

theorem generateCombination_fields (s s₂ : SAFE)
    (h : generateCombination s = .ok s₂) :
    s₂.combinations_mode = s.combinations_mode ∧
    s₂.n_features = s.n_features ∧ s₂.X = s.X ∧
    s₂.y_better = s.y_better ∧ s₂.y_worst = s.y_worst ∧
    s₂.n_points = s.n_points ∧ s₂.random_state = s.random_state ∧
    s₂.aim = s.aim ∧ s₂.model = s.model := by
  unfold generateCombination at h
  split_ifs at h with h1 h2 h3
  · cases h; exact ⟨rfl, rfl, rfl, rfl, rfl, rfl, rfl, rfl, rfl⟩
  · cases h; exact ⟨rfl, rfl, rfl, rfl, rfl, rfl, rfl, rfl, rfl⟩
  · cases h; exact ⟨rfl, rfl, rfl, rfl, rfl, rfl, rfl, rfl, rfl⟩

theorem generateCombination_all (s : SAFE) (h : s.combinations_mode = "all") :
    generateCombination s =
      .ok { s with combinations := some (allCombinations (s.n_features.getD 0)) } := by
  unfold generateCombination
  rw [if_pos (Or.inl h)]

theorem generateCombination_one_by_one (s : SAFE)
    (h : s.combinations_mode = "one-by-one") :
    generateCombination s =
      .ok { s with combinations := some (oneByOne (s.n_features.getD 0)) } := by
  unfold generateCombination
  rw [if_neg (by rw [h]; decide), if_pos h]

theorem npZeros_row (r c i : Nat) (hi : i < r) :
    (npZeros r c).getD i [] = List.replicate c (0 : ℚ) := by
  unfold npZeros
  rw [List.getD_eq_getElem _ _ (by simpa using hi)]
  exact List.getElem_replicate _ _

theorem scanBrute_spec (s₂ s' : SAFE) (model : Model) (aim : String)
    (Xs : Mat) (ys : Vec) (rows : Nat)
    (hok : scanBrute s₂ model aim Xs ys rows = .ok s') :
    ∃ (combs : Mat) (losses : Mat),
      s₂.combinations = some combs ∧
      fillLosses model.predict Xs ys (npZeros rows combs.length) 0 combs = .ok losses ∧
      ¬(combs.length = 0 ∧ rows ≠ 0) ∧
      s' = { s₂ with
        model := some model
        aim := some aim
        y_worst := some (losses.map (fun lr => combs.getD (argmaxFirst lr) []))
        y_better := some (losses.map (fun lr => combs.getD (argminFirst lr) [])) } := by
  unfold scanBrute at hok
  split at hok
  next hcomb => cases hok
  next combs hcomb =>
  split at hok
  next e hfill => cases hok
  next losses hfill =>
  by_cases hguard : combs.length = 0 ∧ rows ≠ 0
  · rw [if_pos hguard] at hok; cases hok
  · rw [if_neg hguard] at hok
    cases hok
    exact ⟨combs, losses, hcomb, hfill, hguard, rfl⟩

theorem scan_else_spec (split : Mat → Vec → ℚ → Option Nat → Mat × Vec)
    (s s' : SAFE) (model : Model) (X : Mat) (y : Vec) (aim : String)
    (hg : s.combinations_mode ≠ "genetic")
    (hf : s.combinations_mode ≠ "forward_selection")
    (hok : scan split s model X y aim = .ok s') :
    ∃ (combs : Mat) (losses : Mat),
      s'.combinations = some combs ∧
      s'.combinations_mode = s.combinations_mode ∧
      s'.X = some (splitData split s.n_points s.random_state X y).1 ∧
      s'.y_worst = some (losses.map (fun lr => combs.getD (argmaxFirst lr) [])) ∧
      s'.y_better = some (losses.map (fun lr => combs.getD (argminFirst lr) [])) ∧
      losses.length = X.length ∧
      (∀ i, i < X.length → losses.getD i [] =
        combs.map (fun p =>
          |model.predict (npMultiplyRow p
              ((splitData split s.n_points s.random_state X y).1.getD i [])) -
            (splitData split s.n_points s.random_state X y).2.getD i 0|)) ∧
      (s.combinations_mode = "all" → combs = allCombinations (X.headD []).length) ∧
      (s.combinations_mode = "one-by-one" → combs = oneByOne (X.headD []).length) := by
  unfold scan at hok
  split at hok
  next e hgen => cases hok
  next s₂ hgen =>
  have hmode : s₂.combinations_mode = s.combinations_mode :=
    (generateCombination_fields _ _ hgen).1
  rw [if_neg (by rw [hmode]; exact hg), if_neg (by rw [hmode]; exact hf)] at hok
  obtain ⟨combs, losses, hcomb, hfill, hguard, hs'⟩ :=
    scanBrute_spec _ _ _ _ _ _ _ hok
  subst hs'
  obtain ⟨h1, h2, h3, h4, h5⟩ := fillLosses_spec model.predict
    (splitData split s.n_points s.random_state X y).1
    (splitData split s.n_points s.random_state X y).2
    combs.length combs 0 (npZeros X.length combs.length) losses
    (fun i hi => by
      rw [npZeros_row _ _ i (by simpa [npZeros] using hi)]
      simp)
    (by omega) hfill
  have hMlen : (npZeros X.length combs.length).length = X.length := by
    simp [npZeros]
  have hllen : losses.length = X.length := by rw [h1, hMlen]
  refine ⟨combs, losses, hcomb, hmode,
    ((generateCombination_fields _ _ hgen).2.2.1 : s₂.X = (scanPre split s X y).X),
    rfl, rfl, hllen, ?_, ?_, ?_⟩
  · -- the rows of the loss matrix
    intro i hi
    have hrowlen : (losses.getD i []).length = combs.length := h2 i (by omega)
    rcases List.eq_nil_or_concat combs with rfl | hconcat
    · have hnil : losses.getD i [] = ([] : Vec) := by
        have h0 : (losses.getD i []).length = 0 := by simpa using hrowlen
        exact List.length_eq_zero.mp h0
      rw [hnil]
      simp
    · have hcne : combs ≠ [] := by
        rintro rfl
        obtain ⟨l, a, hla⟩ := hconcat
        exact absurd hla.symm (by simp)
      obtain ⟨hXl, hyl⟩ := h5 hcne
      rw [hMlen] at hXl
      apply List.ext_getElem
      · rw [hrowlen, List.length_map]
      · intro k hk1 hk2
        rw [List.length_map] at hk2
        rw [← List.getD_eq_getElem _ (0 : ℚ) hk1, ← List.getD_eq_getElem _ (0 : ℚ) (by
          rw [List.length_map]; exact hk2)]
        have hentry := h3 i (by omega) k (by omega)
        rw [Nat.zero_add] at hentry
        rw [hrowlen] at hk1
        rw [hentry]
        unfold lossCol
        rw [getD_zipWith _ _ _ i 0 [] 0 (by omega) (by omega)]
        rw [getD_map _ combs k 0 [] hk2]
  · -- mode 'all': the combinations are the full binary cube
    intro hall
    have hca := generateCombination_all (scanPre split s X y)
      (show s.combinations_mode = "all" from hall)
    rw [hgen] at hca
    have hcombs2 : s₂.combinations =
        some (allCombinations ((scanPre split s X y).n_features.getD 0)) := by
      cases hca; rfl
    rw [hcomb] at hcombs2
    exact Option.some.inj hcombs2
  · -- mode 'one-by-one'
    intro hobo
    have hca := generateCombination_one_by_one (scanPre split s X y)
      (show s.combinations_mode = "one-by-one" from hobo)
    rw [hgen] at hca
    have hcombs2 : s₂.combinations =
        some (oneByOne ((scanPre split s X y).n_features.getD 0)) := by
      cases hca; rfl
    rw [hcomb] at hcombs2
    exact Option.some.inj hcombs2

theorem listMin_mem : ∀ l : List ℚ, l ≠ [] → listMin l ∈ l := by
  intro l
  induction l with
  | nil => intro h; exact absurd rfl h
  | cons x t ih =>
    intro _
    cases t with
    | nil => simp [listMin]
    | cons y t2 =>
      simp only [listMin]
      rcases le_total x (listMin (y :: t2)) with h | h
      · rw [min_eq_left h]; exact List.mem_cons_self _ _
      · rw [min_eq_right h]
        exact List.mem_cons_of_mem _ (ih (by simp))

theorem listMax_mem : ∀ l : List ℚ, l ≠ [] → listMax l ∈ l := by
  intro l
  induction l with
  | nil => intro h; exact absurd rfl h
  | cons x t ih =>
    intro _
    cases t with
    | nil => simp [listMax]
    | cons y t2 =>
      simp only [listMax]
      rcases le_total (listMax (y :: t2)) x with h | h
      · rw [max_eq_left h]; exact List.mem_cons_self _ _
      · rw [max_eq_right h]
        exact List.mem_cons_of_mem _ (ih (by simp))

theorem listIndex_map_spec (f : Vec → ℚ) (q : ℚ) :
    ∀ l : List Vec, q ∈ l.map f →
      listIndex q (l.map f) < l.length ∧
      f (l.getD (listIndex q (l.map f)) []) = q := by
  intro l
  induction l with
  | nil => intro h; simp at h
  | cons c cs ih =>
    intro h
    simp only [List.map_cons, listIndex]
    by_cases he : f c = q
    · rw [if_pos he]
      exact ⟨by simp, he⟩
    · rw [if_neg he]
      have hq : q ∈ cs.map f := by
        rw [List.map_cons] at h
        rcases List.mem_cons.mp h with h1 | h1
        · exact absurd h1.symm he
        · exact h1
      obtain ⟨h1, h2⟩ := ih hq
      exact ⟨by simpa using Nat.succ_lt_succ h1, by simpa using h2⟩

theorem fsCandidates_mem (best c : Vec) (h : c ∈ fsCandidates best) :
    ∃ i, i < best.length ∧ best.getD i 0 ≠ 0 ∧ c = best.set i 0 := by
  unfold fsCandidates at h
  rw [List.mem_filterMap] at h
  obtain ⟨i, hi, hf⟩ := h
  rw [List.mem_range] at hi
  by_cases hnz : best.getD i 0 ≠ 0
  · rw [if_pos hnz] at hf
    exact ⟨i, hi, hnz, (Option.some.inj hf).symm⟩
  · rw [if_neg hnz] at hf; cases hf

theorem fsCandidates_ne_nil (best : Vec) (h : 0 < nonzeroCount best) :
    fsCandidates best ≠ [] := by
  unfold nonzeroCount at h
  obtain ⟨x, hx, hpx⟩ := List.countP_pos.mp h
  obtain ⟨i, hi, hg⟩ := List.mem_iff_getElem.mp hx
  have hnz : best.getD i 0 ≠ 0 := by
    rw [List.getD_eq_getElem _ _ hi, hg]
    exact of_decide_eq_true hpx
  have hmem : best.set i 0 ∈ fsCandidates best := by
    unfold fsCandidates
    rw [List.mem_filterMap]
    exact ⟨i, List.mem_range.mpr hi, if_pos hnz⟩
  exact List.ne_nil_of_mem hmem

theorem nonzeroCount_set_zero :
    ∀ (v : Vec) (i : Nat), i < v.length → v.getD i 0 ≠ 0 →
      nonzeroCount (v.set i 0) + 1 = nonzeroCount v := by
  intro v
  induction v with
  | nil => intro i hi; simp at hi
  | cons a t ih =>
    intro i hi hnz
    cases i with
    | zero =>
      have ha : a ≠ 0 := by simpa using hnz
      unfold nonzeroCount
      simp only [List.set_cons_zero, List.countP_cons]
      simp [ha]
    | succ i' =>
      have := ih i' (by simpa using hi) (by simpa using hnz)
      unfold nonzeroCount at this ⊢
      simp only [List.set_cons_succ, List.countP_cons]
      omega

theorem nonzeroCount_replicate_one (n : Nat) :
    nonzeroCount (List.replicate n (1 : ℚ)) = n := by
  unfold nonzeroCount
  induction n with
  | zero => simp
  | succ n ih =>
    rw [List.replicate_succ, List.countP_cons, ih]
    norm_num

theorem binaryVec_set_zero (v : Vec) (i : Nat) (h : binaryVec v) :
    binaryVec (v.set i 0) := by
  intro x hx
  rcases List.mem_or_eq_of_mem_set hx with hx' | hx'
  · exact h x hx'
  · exact Or.inl hx'

theorem binaryVec_replicate_one (n : Nat) :
    binaryVec (List.replicate n (1 : ℚ)) := by
  intro x hx
  rw [List.eq_of_mem_replicate hx]
  exact Or.inr rfl

theorem fsMinAux_spec (mp : Vec → ℚ) (data : Vec) (label : ℚ) :
    ∀ (fuel : Nat) (best : Vec),
      fuel ≤ nonzeroCount best →
      binaryVec best →
      ∃ v, fsMinAux mp data label fuel best (absLoss mp data label best) = .ok v ∧
        v.length = best.length ∧ binaryVec v ∧
        absLoss mp data label v ≤ absLoss mp data label best ∧
        (v = best ∨ absLoss mp data label v < absLoss mp data label best) := by
  intro fuel
  induction fuel with
  | zero =>
    intro best _ _
    exact ⟨best, rfl, rfl, by assumption, le_refl _, Or.inl rfl⟩
  | succ fuel ih =>
    intro best hcount hbin
    have hne : fsCandidates best ≠ [] :=
      fsCandidates_ne_nil best (by omega)
    simp only [fsMinAux]
    rw [if_neg hne]
    have hlne : (fsCandidates best).map (absLoss mp data label) ≠ [] := by
      simpa using hne
    have hmem : listMin ((fsCandidates best).map (absLoss mp data label)) ∈
        (fsCandidates best).map (absLoss mp data label) :=
      listMin_mem _ hlne
    obtain ⟨hidx, hval⟩ := listIndex_map_spec (absLoss mp data label) _ _ hmem
    set current := listMin ((fsCandidates best).map (absLoss mp data label)) with hcdef
    set c := (fsCandidates best).getD
      (listIndex current ((fsCandidates best).map (absLoss mp data label))) [] with hcc
    have hcmem : c ∈ fsCandidates best := getD_mem _ _ _ hidx
    obtain ⟨i, hilt, hinz, hci⟩ := fsCandidates_mem best c hcmem
    by_cases hlt : current < absLoss mp data label best
    · rw [if_pos hlt]
      have hccount : fuel ≤ nonzeroCount c := by
        have := nonzeroCount_set_zero best i hilt hinz
        rw [← hci] at this
        omega
      have hcbin : binaryVec c := by
        rw [hci]; exact binaryVec_set_zero best i hbin
      obtain ⟨v, hv, hvlen, hvbin, hvle, hvor⟩ := ih c hccount hcbin
      rw [hval] at hv
      refine ⟨v, hv, ?_, hvbin, ?_, ?_⟩
      · rw [hvlen, hci, List.length_set]
      · rw [hval] at hvle
        exact hvle.trans (le_of_lt hlt)
      · rw [hval] at hvle
        exact Or.inr (lt_of_le_of_lt hvle hlt)
    · rw [if_neg hlt]
      exact ⟨best, rfl, rfl, hbin, le_refl _, Or.inl rfl⟩

theorem fsMaxAux_spec (mp : Vec → ℚ) (data : Vec) (label : ℚ) :
    ∀ (fuel : Nat) (best : Vec),
      fuel ≤ nonzeroCount best →
      binaryVec best →
      ∃ v, fsMaxAux mp data label fuel best (absLoss mp data label best) = .ok v ∧
        v.length = best.length ∧ binaryVec v ∧
        absLoss mp data label best ≤ absLoss mp data label v ∧
        (v = best ∨ absLoss mp data label best < absLoss mp data label v) := by
  intro fuel
  induction fuel with
  | zero =>
    intro best _ _
    exact ⟨best, rfl, rfl, by assumption, le_refl _, Or.inl rfl⟩
  | succ fuel ih =>
    intro best hcount hbin
    have hne : fsCandidates best ≠ [] :=
      fsCandidates_ne_nil best (by omega)
    simp only [fsMaxAux]
    rw [if_neg hne]
    have hlne : (fsCandidates best).map (absLoss mp data label) ≠ [] := by
      simpa using hne
    have hmem : listMax ((fsCandidates best).map (absLoss mp data label)) ∈
        (fsCandidates best).map (absLoss mp data label) :=
      listMax_mem _ hlne
    obtain ⟨hidx, hval⟩ := listIndex_map_spec (absLoss mp data label) _ _ hmem
    set current := listMax ((fsCandidates best).map (absLoss mp data label)) with hcdef
    set c := (fsCandidates best).getD
      (listIndex current ((fsCandidates best).map (absLoss mp data label))) [] with hcc
    have hcmem : c ∈ fsCandidates best := getD_mem _ _ _ hidx
    obtain ⟨i, hilt, hinz, hci⟩ := fsCandidates_mem best c hcmem
    by_cases hlt : absLoss mp data label best < current
    · rw [if_pos hlt]
      have hccount : fuel ≤ nonzeroCount c := by
        have := nonzeroCount_set_zero best i hilt hinz
        rw [← hci] at this
        omega
      have hcbin : binaryVec c := by
        rw [hci]; exact binaryVec_set_zero best i hbin
      obtain ⟨v, hv, hvlen, hvbin, hvle, hvor⟩ := ih c hccount hcbin
      rw [hval] at hv
      refine ⟨v, hv, ?_, hvbin, ?_, ?_⟩
      · rw [hvlen, hci, List.length_set]
      · rw [hval] at hvle
        exact (le_of_lt hlt).trans hvle
      · rw [hval] at hvle
        exact Or.inr (lt_of_lt_of_le hlt hvle)
    · rw [if_neg hlt]
      exact ⟨best, rfl, rfl, hbin, le_refl _, Or.inl rfl⟩

theorem npRound_binary (q : ℚ) (h0 : 0 ≤ q) (h1 : q ≤ 1) :
    npRound q = 0 ∨ npRound q = 1 := by
  have hfl : 0 ≤ ⌊q⌋ := Int.floor_nonneg.mpr h0
  have hfu : ⌊q⌋ ≤ 1 := by
    calc ⌊q⌋ ≤ ⌊(1 : ℚ)⌋ := Int.floor_le_floor h1
    _ = 1 := Int.floor_one
  rcases (by omega : ⌊q⌋ = 0 ∨ ⌊q⌋ = 1) with hf | hf
  · unfold npRound
    rw [hf]
    push_cast
    split_ifs <;> norm_num
  · have hq : (1 : ℚ) ≤ q := by
      exact_mod_cast Int.le_floor.mp (le_of_eq hf.symm)
    have hq1 : q = 1 := le_antisymm h1 hq
    unfold npRound
    rw [hf, hq1]
    norm_num

theorem sqDist_self (v : Vec) : sqDist v v = 0 := by
  unfold sqDist
  induction v with
  | nil => simp
  | cons x t ih => simpa using ih

theorem sqDist_nonneg (a : Vec) : ∀ b : Vec, 0 ≤ sqDist a b := by
  induction a with
  | nil => intro b; simp [sqDist]
  | cons x t ih =>
    intro b
    cases b with
    | nil => simp [sqDist]
    | cons y u =>
      have := ih u
      unfold sqDist at this ⊢
      simp only [List.zipWith_cons_cons, List.sum_cons]
      have hsq : 0 ≤ (x - y) ^ 2 := sq_nonneg _
      linarith

theorem sqDist_pos (a : Vec) : ∀ b : Vec, a.length = b.length → a ≠ b →
    0 < sqDist a b := by
  induction a with
  | nil =>
    intro b hlen hne
    cases b with
    | nil => exact absurd rfl hne
    | cons y u => simp at hlen
  | cons x t ih =>
    intro b hlen hne
    cases b with
    | nil => simp at hlen
    | cons y u =>
      unfold sqDist
      simp only [List.zipWith_cons_cons, List.sum_cons]
      by_cases hxy : x = y
      · subst hxy
        have htu : t ≠ u := by
          intro h; exact hne (by rw [h])
        have := ih u (by simpa using hlen) htu
        unfold sqDist at this
        simp only [sub_self]
        norm_num
        exact this
      · have hpos : 0 < (x - y) ^ 2 := by
          have hne0 : x - y ≠ 0 := sub_ne_zero.mpr hxy
          exact lt_of_le_of_ne (sq_nonneg _) (Ne.symm (pow_ne_zero 2 hne0))
        have hrest : 0 ≤ (List.zipWith (fun a b => (a - b) ^ 2) t u).sum := by
          have := sqDist_nonneg t u
          unfold sqDist at this
          exact this
        linarith

theorem kdQuery_unique (T : Mat) (q : Vec) (i : Nat) (hi : i < T.length)
    (hmin : ∀ j, j < T.length → j ≠ i →
      sqDist q (T.getD i []) < sqDist q (T.getD j [])) :
    kdQuery T q = i := by
  unfold kdQuery
  have hlen : (T.map (sqDist q)).length = T.length := by simp
  have hlne : T.map (sqDist q) ≠ [] :=
    List.ne_nil_of_length_pos (by omega)
  by_contra hne
  have ha : argminFirst (T.map (sqDist q)) < T.length := by
    have := argminFirst_lt _ hlne
    omega
  have h1 : (T.map (sqDist q)).getD (argminFirst (T.map (sqDist q))) 0 =
      listMin (T.map (sqDist q)) := getD_argminFirst _ hlne
  have h2 : listMin (T.map (sqDist q)) ≤ (T.map (sqDist q)).getD i 0 :=
    listMin_le _ i (by omega)
  have hgi : (T.map (sqDist q)).getD i 0 = sqDist q (T.getD i []) :=
    getD_map _ _ _ _ [] hi
  have hga : (T.map (sqDist q)).getD (argminFirst (T.map (sqDist q))) 0 =
      sqDist q (T.getD (argminFirst (T.map (sqDist q))) []) :=
    getD_map _ _ _ _ [] ha
  have h3 : sqDist q (T.getD i []) <
      sqDist q (T.getD (argminFirst (T.map (sqDist q))) []) :=
    hmin _ ha hne
  rw [← hga, h1] at h3
  rw [hgi] at h2
  exact absurd (h2.trans_lt h3) (lt_irrefl _)

theorem learn_knn_none (fit : Learner → Learner) (s : SAFE) (aim : String)
    (train : Bool) (X : Mat) (hX : s.X = some X) :
    learn fit s "knn" aim none train = .ok { s with
      aim := some (learnAim s.aim aim)
      y := if learnAim s.aim aim = "better" then s.y_better else s.y_worst
      algorithm := some "knn"
      learner := some (.kdtree X) } := by
  obtain ⟨nf, mode, alg, combs, sX, yb, yw, yy, saim, mdl, np, rs, nc, lr⟩ := s
  have hX' : sX = some X := hX
  subst hX'
  rfl

theorem get_selection_knn (s : SAFE) (t : Mat) (Y : Mat) (data : Mat)
    (halg : s.algorithm = some "knn") (hl : s.learner = some (.kdtree t))
    (hy : s.y = some Y) :
    get_selection s data =
      .ok (some (data.map (fun q => Y.getD (kdQuery t q) []))) := by
  obtain ⟨nf, mode, alg, combs, sX, yb, yw, yy, saim, mdl, np, rs, nc, lr⟩ := s
  have halg' : alg = some "knn" := halg
  have hl' : lr = some (.kdtree t) := hl
  have hy' : yy = some Y := hy
  subst halg'; subst hl'; subst hy'
  rfl

theorem get_selection_ann (s : SAFE) (f : Mat → Mat) (data : Mat)
    (halg : s.algorithm = some "ann") (hl : s.learner = some (.keras f)) :
    get_selection s data = .ok (some (npRoundMat (f data))) := by
  obtain ⟨nf, mode, alg, combs, sX, yb, yw, yy, saim, mdl, np, rs, nc, lr⟩ := s
  have halg' : alg = some "ann" := halg
  have hl' : lr = some (.keras f) := hl
  subst halg'; subst hl'
  rfl

theorem binaryVec_getD (M : Mat) (h : binaryMat M) (k : Nat) :
    binaryVec (M.getD k []) := by
  by_cases hk : k < M.length
  · exact h _ (getD_mem M k [] hk)
  · rw [List.getD_eq_default _ _ (by omega)]
    intro x hx
    simp at hx

theorem binaryMat_allCombinations (n : Nat) : binaryMat (allCombinations n) :=
  fun r hr => ((mem_allCombinations n r).mp hr).2

theorem binaryMat_oneByOne (n : Nat) : binaryMat (oneByOne n) := by
  unfold oneByOne
  have hstep : ∀ (k b : Nat) (M : Mat), binaryMat M →
      binaryMat ((List.range' b k).foldl
        (fun M i => M.set i ((M.getD i []).set i 0)) M) := by
    intro k
    induction k with
    | zero => intro b M h; simpa using h
    | succ k ih =>
      intro b M h
      rw [List.range'_succ, List.foldl_cons]
      apply ih
      intro r hr
      rcases List.mem_or_eq_of_mem_set hr with hr' | hr'
      · exact h r hr'
      · subst hr'
        exact binaryVec_set_zero _ b (binaryVec_getD M h b)
  apply hstep
  intro r hr
  rw [List.eq_of_mem_replicate hr]
  exact binaryVec_replicate_one n

/-- C2: when `combinations_mode` is `'all'`, `_generate_combination` stores a
combinations array whose rows are exactly the `2 ^ n_features` binary vectors
of length `n_features`, each occurring exactly once. -/
theorem combinations_all_enumerates_cube (s : SAFE) (n : Nat)
    (hmode : s.combinations_mode = "all") (hnf : s.n_features = some n) :
    ∃ s₂, generateCombination s = .ok s₂ ∧
      s₂.combinations = some (allCombinations n) ∧
      (allCombinations n).length = 2 ^ n ∧
      (allCombinations n).Nodup ∧
      (∀ v : Vec, v ∈ allCombinations n ↔ (v.length = n ∧ binaryVec v)) := by
  refine ⟨_, generateCombination_all s hmode, ?_, allCombinations_length n,
    allCombinations_nodup n, mem_allCombinations n⟩
  show some (allCombinations (s.n_features.getD 0)) = some (allCombinations n)
  rw [hnf]
  rfl

/-- Witness for C2 at two features. -/
theorem combinations_all_enumerates_cube_witness :
    ∃ s₂, generateCombination
        { SAFE.init "all" 10 none none with n_features := some 2 } = .ok s₂ ∧
      s₂.combinations = some (allCombinations 2) ∧
      (allCombinations 2).length = 2 ^ 2 ∧
      (allCombinations 2).Nodup ∧
      (∀ v : Vec, v ∈ allCombinations 2 ↔ (v.length = 2 ∧ binaryVec v)) :=
  combinations_all_enumerates_cube _ 2 rfl rfl

/-- C9: when `combinations_mode` is `'one-by-one'`, the combinations array
has `n_features + 1` rows; row `i` for `1 ≤ i ≤ n_features - 1` zeroes
exactly feature `i`, rows `0` and `n_features` are all ones (two duplicate
all-ones rows at distinct indices), and no row eliminates feature `0`. -/
theorem one_by_one_structure (n : Nat) (hn : 1 ≤ n) :
    (oneByOne n).length = n + 1 ∧
    (oneByOne n).getD 0 [] = List.replicate n 1 ∧
    (oneByOne n).getD n [] = List.replicate n 1 ∧
    (∀ i, 1 ≤ i → i ≤ n - 1 → ∀ j, j < n →
      ((oneByOne n).getD i []).getD j 0 = if j = i then 0 else 1) ∧
    (∀ i, i ≤ n → ((oneByOne n).getD i []).getD 0 0 = 1) ∧
    (0 : Nat) ≠ n := by
  refine ⟨oneByOne_length n, ?_, ?_, ?_, ?_, by omega⟩
  · rw [oneByOne_row n 0 (by omega)]
    rw [if_neg (by omega)]
  · rw [oneByOne_row n n (le_refl n)]
    rw [if_neg (by omega)]
  · intro i h1 h2 j hj
    rw [oneByOne_row n i (by omega), if_pos ⟨h1, h2⟩]
    by_cases hji : j = i
    · subst hji
      rw [if_pos rfl]
      exact getD_set_self _ j 0 0 (by simpa using hj)
    · rw [if_neg hji]
      rw [getD_set_ne _ i j 0 0 (fun h => hji h.symm)]
      rw [List.getD_eq_getElem _ _ (by simpa using hj)]
      exact List.getElem_replicate _ _
  · intro i hi
    rw [oneByOne_row n i hi]
    by_cases hcase : 1 ≤ i ∧ i ≤ n - 1
    · rw [if_pos hcase]
      rw [getD_set_ne _ i 0 0 0 (by omega)]
      rw [List.getD_eq_getElem _ _ (by simpa using hn)]
      exact List.getElem_replicate _ _
    · rw [if_neg hcase]
      rw [List.getD_eq_getElem _ _ (by simpa using hn)]
      exact List.getElem_replicate _ _

/-- Witness for C9 at three features. -/
theorem one_by_one_structure_witness :
    (oneByOne 3).length = 3 + 1 ∧
    (oneByOne 3).getD 0 [] = List.replicate 3 1 ∧
    (oneByOne 3).getD 3 [] = List.replicate 3 1 ∧
    (∀ i, 1 ≤ i → i ≤ 3 - 1 → ∀ j, j < 3 →
      ((oneByOne 3).getD i []).getD j 0 = if j = i then 0 else 1) ∧
    (∀ i, i ≤ 3 → ((oneByOne 3).getD i []).getD 0 0 = 1) ∧
    (0 : Nat) ≠ 3 :=
  one_by_one_structure 3 (by decide)

/-- C8: for every state, input and threshold, `get_candidates` raises
`AttributeError` before producing any result, because it calls
`self.behaviour`, which is not an attribute of the class. -/
theorem get_candidates_raises_attribute_error (s : SAFE) (data : Mat)
    (threshold : ℚ) :
    get_candidates s data threshold = .error .attributeError := by
  unfold get_candidates
  rw [if_neg (by decide : ¬("behaviour" ∈ SAFE.attrs))]

/-- C6 (code bug): `get_accuracy` can never report the two accuracies: the
module never imports `accuracy_score`, so resolving the name raises
`NameError` inside the `try` block and again in the `except` block, for
every state, data set and label array. -/
theorem get_accuracy_always_raises (s : SAFE) (data : Mat) (labels : Labels) :
    exceptFailed (get_accuracy moduleAccuracyScore s data labels).2 = true := by
  show exceptFailed (match SAFE.get_clean s data with
    | .error e => .error e
    | .ok oc =>
      match tryMulticlass moduleAccuracyScore labels oc.1 oc.2 with
      | .ok r => .ok r
      | .error _ => binaryAcc moduleAccuracyScore labels oc.1 oc.2) = true
  cases SAFE.get_clean s data with
  | error e => rfl
  | ok oc => rfl

/-- C7: exception handling is limited to `get_accuracy`: the object state is
never modified there; when the multiclass accuracy computation raises, the
exception is suppressed and the binary computation is attempted instead;
when it succeeds its result is reported; every other operation propagates
errors from its callees unchanged (`clean_data` from `get_selection`,
`_get_clean` and `get_behaviour` from `clean_data`). -/
theorem exception_handling_spec :
    (∀ (acc : Option (Vec → Vec → ℚ)) (s : SAFE) (data : Mat) (labels : Labels),
        (get_accuracy acc s data labels).1 = s) ∧
    (∀ (acc : Option (Vec → Vec → ℚ)) (s : SAFE) (data : Mat) (labels : Labels)
        (orig cleaned : Vec) (e : PyErr),
        SAFE.get_clean s data = .ok (orig, cleaned) →
        tryMulticlass acc labels orig cleaned = .error e →
        (get_accuracy acc s data labels).2 = binaryAcc acc labels orig cleaned) ∧
    (∀ (acc : Option (Vec → Vec → ℚ)) (s : SAFE) (data : Mat) (labels : Labels)
        (orig cleaned : Vec) (r : ℚ × ℚ),
        SAFE.get_clean s data = .ok (orig, cleaned) →
        tryMulticlass acc labels orig cleaned = .ok r →
        (get_accuracy acc s data labels).2 = .ok r) ∧
    (∀ (s : SAFE) (data : Mat) (e : PyErr),
        get_selection s data = .error e → clean_data s data = .error e) ∧
    (∀ (s : SAFE) (data : Mat) (m : Model) (e : PyErr), s.model = some m →
        clean_data s data = .error e → SAFE.get_clean s data = .error e) ∧
    (∀ (s : SAFE) (data : Mat) (m : Model) (e : PyErr), s.model = some m →
        clean_data s data = .error e → get_behaviour s data = .error e) := by
  refine ⟨?_, ?_, ?_, ?_, ?_, ?_⟩
  · intro acc s data labels
    rfl
  · intro acc s data labels orig cleaned e hgc htm
    show (match SAFE.get_clean s data with
      | Except.error e => Except.error e
      | Except.ok oc =>
        match tryMulticlass acc labels oc.1 oc.2 with
        | Except.ok r => Except.ok r
        | Except.error _ => binaryAcc acc labels oc.1 oc.2) =
      binaryAcc acc labels orig cleaned
    rw [hgc]
    show (match tryMulticlass acc labels orig cleaned with
      | Except.ok r => Except.ok r
      | Except.error _ => binaryAcc acc labels orig cleaned) =
      binaryAcc acc labels orig cleaned
    rw [htm]
  · intro acc s data labels orig cleaned r hgc htm
    show (match SAFE.get_clean s data with
      | Except.error e => Except.error e
      | Except.ok oc =>
        match tryMulticlass acc labels oc.1 oc.2 with
        | Except.ok r => Except.ok r
        | Except.error _ => binaryAcc acc labels oc.1 oc.2) = Except.ok r
    rw [hgc]
    show (match tryMulticlass acc labels orig cleaned with
      | Except.ok r => Except.ok r
      | Except.error _ => binaryAcc acc labels orig cleaned) = Except.ok r
    rw [htm]
  · intro s data e h
    unfold clean_data
    rw [h]
  · intro s data m e hm hcd
    unfold SAFE.get_clean
    rw [hm]
    show (match clean_data s data with
      | Except.error e => Except.error e
      | Except.ok cd =>
        Except.ok (data.map m.predict_classes, cd.map m.predict_classes)) =
      Except.error e
    rw [hcd]
  · intro s data m e hm hcd
    unfold get_behaviour
    rw [hm]
    show (match clean_data s data with
      | Except.error e => Except.error e
      | Except.ok cd => Except.ok (data.map m.predict, cd.map m.predict)) =
      Except.error e
    rw [hcd]

/-- Witness for C7: a state on which the multiclass attempt raises and is
suppressed, and one on which `get_selection` raises and `clean_data`
propagates the error. -/
theorem exception_handling_spec_witness :
    (get_accuracy none exAccState [[0]] (Sum.inl [0])).1 = exAccState ∧
    (get_accuracy none exAccState [[0]] (Sum.inl [0])).2 =
      binaryAcc none (Sum.inl [0]) [0] [0] ∧
    clean_data exBadState [[0]] = .error .attributeError := by
  refine ⟨exception_handling_spec.1 none exAccState [[0]] (Sum.inl [0]),
    exception_handling_spec.2.1 none exAccState [[0]] (Sum.inl [0]) [0] [0]
      .nameError ?_ ?_,
    exception_handling_spec.2.2.2.1 exBadState [[0]] .attributeError ?_⟩
  · norm_num +decide [SAFE.get_clean, clean_data, get_selection, exAccState,
      exKnnLearned, exKnnBase, SAFE.init, kdQuery, sqDist, argminFirst,
      listMin, npMultiplyRow, exModel]
  · rfl
  · norm_num +decide [get_selection, exBadState, SAFE.init]

/-- C10: with the model a fixed function and `n_points` unset, the public
operations are deterministic: `scan` does not depend on the external
splitter, and equal states with equal inputs give equal results for `scan`,
`learn('knn')`, `get_selection`, `get_robustness` and `clean_data`. -/
theorem operations_deterministic :
    (∀ (split₁ split₂ : Mat → Vec → ℚ → Option Nat → Mat × Vec) (s : SAFE)
        (model : Model) (X : Mat) (y : Vec) (aim : String),
        s.n_points = none →
        scan split₁ s model X y aim = scan split₂ s model X y aim) ∧
    (∀ (split : Mat → Vec → ℚ → Option Nat → Mat × Vec) (s₁ s₂ : SAFE)
        (model : Model) (X₁ X₂ : Mat) (y₁ y₂ : Vec) (aim : String),
        s₁ = s₂ → X₁ = X₂ → y₁ = y₂ →
        scan split s₁ model X₁ y₁ aim = scan split s₂ model X₂ y₂ aim) ∧
    (∀ (fit : Learner → Learner) (s₁ s₂ : SAFE) (aim : String)
        (l₁ l₂ : Option Learner) (t₁ t₂ : Bool),
        s₁ = s₂ → l₁ = l₂ → t₁ = t₂ →
        learn fit s₁ "knn" aim l₁ t₁ = learn fit s₂ "knn" aim l₂ t₂) ∧
    (∀ (s₁ s₂ : SAFE) (d₁ d₂ : Mat), s₁ = s₂ → d₁ = d₂ →
        get_selection s₁ d₁ = get_selection s₂ d₂) ∧
    (∀ (s₁ s₂ : SAFE) (d₁ d₂ : Option Mat), s₁ = s₂ → d₁ = d₂ →
        get_robustness s₁ d₁ = get_robustness s₂ d₂) ∧
    (∀ (s₁ s₂ : SAFE) (d₁ d₂ : Mat), s₁ = s₂ → d₁ = d₂ →
        clean_data s₁ d₁ = clean_data s₂ d₂) := by
  refine ⟨?_, ?_, ?_, ?_, ?_, ?_⟩
  · intro split₁ split₂ s model X y aim h
    unfold scan scanPre
    rw [h]
    simp only [splitData]
  · rintro split s₁ s₂ model X₁ X₂ y₁ y₂ aim rfl rfl rfl
    rfl
  · rintro fit s₁ s₂ aim l₁ l₂ t₁ t₂ rfl rfl rfl
    rfl
  · rintro s₁ s₂ d₁ d₂ rfl rfl
    rfl
  · rintro s₁ s₂ d₁ d₂ rfl rfl
    rfl
  · rintro s₁ s₂ d₁ d₂ rfl rfl
    rfl

/-- Witness for C10: two different external splitters give the same scan. -/
theorem operations_deterministic_witness :
    scan exSplitId (SAFE.init "all" 10 none none) exModel [[1]] [0] "worst" =
      scan exSplitNil (SAFE.init "all" 10 none none) exModel [[1]] [0] "worst" :=
  operations_deterministic.1 exSplitId exSplitNil _ exModel [[1]] [0] "worst" rfl

/-- C1: after any successful `scan` in a mode other than `'genetic'` and
`'forward_selection'`, row `i` of `y_worst` is the stored combination at the
first argmax of the loss row of sample `i`, row `i` of `y_better` the one at
the first argmin, and those positions attain the maximum resp. minimum of
the row, with ties going to the first index. -/
theorem scan_bruteforce_rowwise_argmax
    (split : Mat → Vec → ℚ → Option Nat → Mat × Vec)
    (s s' : SAFE) (model : Model) (X : Mat) (y : Vec) (aim : String)
    (hg : s.combinations_mode ≠ "genetic")
    (hf : s.combinations_mode ≠ "forward_selection")
    (hok : scan split s model X y aim = .ok s') :
    ∃ (combs yw yb Xs : Mat) (ys : Vec),
      (Xs, ys) = splitData split s.n_points s.random_state X y ∧
      s'.combinations = some combs ∧
      s'.X = some Xs ∧
      s'.y_worst = some yw ∧
      s'.y_better = some yb ∧
      yw.length = X.length ∧
      yb.length = X.length ∧
      (∀ i, i < X.length →
        yw.getD i [] =
          combs.getD (argmaxFirst (scanLossRow model combs Xs ys i)) [] ∧
        yb.getD i [] =
          combs.getD (argminFirst (scanLossRow model combs Xs ys i)) [] ∧
        (∀ j, j < combs.length →
          (scanLossRow model combs Xs ys i).getD j 0 ≤
            (scanLossRow model combs Xs ys i).getD
              (argmaxFirst (scanLossRow model combs Xs ys i)) 0) ∧
        (∀ j, j < argmaxFirst (scanLossRow model combs Xs ys i) →
          (scanLossRow model combs Xs ys i).getD j 0 <
            (scanLossRow model combs Xs ys i).getD
              (argmaxFirst (scanLossRow model combs Xs ys i)) 0) ∧
        (∀ j, j < combs.length →
          (scanLossRow model combs Xs ys i).getD
              (argminFirst (scanLossRow model combs Xs ys i)) 0 ≤
            (scanLossRow model combs Xs ys i).getD j 0) ∧
        (∀ j, j < argminFirst (scanLossRow model combs Xs ys i) →
          (scanLossRow model combs Xs ys i).getD
              (argminFirst (scanLossRow model combs Xs ys i)) 0 <
            (scanLossRow model combs Xs ys i).getD j 0)) := by
  obtain ⟨combs, losses, hcomb, hmode, hX, hyw, hyb, hlen, hrows, _, _⟩ :=
    scan_else_spec split s s' model X y aim hg hf hok
  refine ⟨combs, losses.map (fun lr => combs.getD (argmaxFirst lr) []),
    losses.map (fun lr => combs.getD (argminFirst lr) []),
    (splitData split s.n_points s.random_state X y).1,
    (splitData split s.n_points s.random_state X y).2,
    rfl, hcomb, hX, hyw, hyb, by rw [List.length_map, hlen],
    by rw [List.length_map, hlen], ?_⟩
  intro i hi
  have hrow : scanLossRow model combs
      (splitData split s.n_points s.random_state X y).1
      (splitData split s.n_points s.random_state X y).2 i = losses.getD i [] := by
    unfold scanLossRow
    exact (hrows i hi).symm
  have hilos : i < losses.length := by omega
  constructor
  · rw [getD_map _ losses i [] [] hilos, hrow]
  constructor
  · rw [getD_map _ losses i [] [] hilos, hrow]
  have hrowlen : (scanLossRow model combs
      (splitData split s.n_points s.random_state X y).1
      (splitData split s.n_points s.random_state X y).2 i).length =
      combs.length := by
    unfold scanLossRow
    rw [List.length_map]
  constructor
  · intro j hj
    have hne : scanLossRow model combs
        (splitData split s.n_points s.random_state X y).1
        (splitData split s.n_points s.random_state X y).2 i ≠ [] :=
      List.ne_nil_of_length_pos (by omega)
    rw [getD_argmaxFirst _ hne]
    exact listMax_ge _ j (by omega)
  constructor
  · intro j hj
    by_cases hne : scanLossRow model combs
        (splitData split s.n_points s.random_state X y).1
        (splitData split s.n_points s.random_state X y).2 i = []
    · rw [hne] at hj
      simp [argmaxFirst] at hj
    · rw [getD_argmaxFirst _ hne]
      exact argmaxFirst_first _ j hj
  constructor
  · intro j hj
    have hne : scanLossRow model combs
        (splitData split s.n_points s.random_state X y).1
        (splitData split s.n_points s.random_state X y).2 i ≠ [] :=
      List.ne_nil_of_length_pos (by omega)
    rw [getD_argminFirst _ hne]
    exact listMin_le _ j (by omega)
  · intro j hj
    by_cases hne : scanLossRow model combs
        (splitData split s.n_points s.random_state X y).1
        (splitData split s.n_points s.random_state X y).2 i = []
    · rw [hne] at hj
      simp [argminFirst] at hj
    · rw [getD_argminFirst _ hne]
      exact argminFirst_first _ j hj

/-- Witness for C1: a full scan of a concrete two-sample data set in mode
`'all'`. -/
theorem scan_bruteforce_rowwise_argmax_witness :
    ∃ (combs yw yb Xs : Mat) (ys : Vec),
      (Xs, ys) = splitData exSplitId none none [[1],[2]] [0,0] ∧
      exScanState.combinations = some combs ∧
      exScanState.X = some Xs ∧
      exScanState.y_worst = some yw ∧
      exScanState.y_better = some yb ∧
      yw.length = ([[1],[2]] : Mat).length ∧
      yb.length = ([[1],[2]] : Mat).length ∧
      (∀ i, i < ([[1],[2]] : Mat).length →
        yw.getD i [] =
          combs.getD (argmaxFirst (scanLossRow exModel combs Xs ys i)) [] ∧
        yb.getD i [] =
          combs.getD (argminFirst (scanLossRow exModel combs Xs ys i)) [] ∧
        (∀ j, j < combs.length →
          (scanLossRow exModel combs Xs ys i).getD j 0 ≤
            (scanLossRow exModel combs Xs ys i).getD
              (argmaxFirst (scanLossRow exModel combs Xs ys i)) 0) ∧
        (∀ j, j < argmaxFirst (scanLossRow exModel combs Xs ys i) →
          (scanLossRow exModel combs Xs ys i).getD j 0 <
            (scanLossRow exModel combs Xs ys i).getD
              (argmaxFirst (scanLossRow exModel combs Xs ys i)) 0) ∧
        (∀ j, j < combs.length →
          (scanLossRow exModel combs Xs ys i).getD
              (argminFirst (scanLossRow exModel combs Xs ys i)) 0 ≤
            (scanLossRow exModel combs Xs ys i).getD j 0) ∧
        (∀ j, j < argminFirst (scanLossRow exModel combs Xs ys i) →
          (scanLossRow exModel combs Xs ys i).getD
              (argminFirst (scanLossRow exModel combs Xs ys i)) 0 <
            (scanLossRow exModel combs Xs ys i).getD j 0)) :=
  scan_bruteforce_rowwise_argmax exSplitId (SAFE.init "all" 10 none none)
    exScanState exModel [[1],[2]] [0,0] "worst" (by decide) (by decide)
    (by norm_num +decide [scan, scanPre, splitData, generateCombination,
      allCombinations, npFlip, prodBin, scanBrute, fillLosses, setCol, lossCol,
      npMultiplyRow, npZeros, argmaxFirst, argminFirst, listMax, listMin,
      exScanState, SAFE.init, exModel, exSplitId])

/-- C4: the greedy forward-selection searches start from the all-ones mask;
every candidate of an outer iteration zeroes exactly one remaining feature;
the min variant returns, after at most `n_features` outer iterations, a
binary mask whose loss never exceeds the loss of the all-ones mask and is
strictly smaller unless the mask is still all ones (acceptance only on
strict improvement); the max variant satisfies the mirrored property. -/
theorem forward_selection_greedy_spec :
    (∀ (best c : Vec), c ∈ fsCandidates best →
      ∃ i, i < best.length ∧ best.getD i 0 ≠ 0 ∧ c = best.set i 0) ∧
    (∀ (mp : Vec → ℚ) (data : Vec) (label : ℚ) (n : Nat),
      ∃ v, fsMin mp data label n = .ok v ∧ v.length = n ∧ binaryVec v ∧
        absLoss mp data label v ≤ absLoss mp data label (List.replicate n 1) ∧
        (v = List.replicate n 1 ∨
          absLoss mp data label v <
            absLoss mp data label (List.replicate n 1))) ∧
    (∀ (mp : Vec → ℚ) (data : Vec) (label : ℚ) (n : Nat),
      ∃ v, fsMax mp data label n = .ok v ∧ v.length = n ∧ binaryVec v ∧
        absLoss mp data label (List.replicate n 1) ≤ absLoss mp data label v ∧
        (v = List.replicate n 1 ∨
          absLoss mp data label (List.replicate n 1) <
            absLoss mp data label v)) := by
  refine ⟨fsCandidates_mem, ?_, ?_⟩
  · intro mp data label n
    obtain ⟨v, hv, hlen, hbin, hle, hor⟩ := fsMinAux_spec mp data label n
      (List.replicate n 1) (le_of_eq (nonzeroCount_replicate_one n).symm)
      (binaryVec_replicate_one n)
    exact ⟨v, hv, by rw [hlen, List.length_replicate], hbin, hle, hor⟩
  · intro mp data label n
    obtain ⟨v, hv, hlen, hbin, hle, hor⟩ := fsMaxAux_spec mp data label n
      (List.replicate n 1) (le_of_eq (nonzeroCount_replicate_one n).symm)
      (binaryVec_replicate_one n)
    exact ⟨v, hv, by rw [hlen, List.length_replicate], hbin, hle, hor⟩

/-- Witness for C4: a concrete candidate and two concrete searches over a
two-feature sample. -/
theorem forward_selection_greedy_spec_witness :
    (∃ i, i < ([1, 1] : Vec).length ∧ ([1, 1] : Vec).getD i 0 ≠ 0 ∧
      ([0, 1] : Vec) = ([1, 1] : Vec).set i 0) ∧
    (∃ v, fsMin (fun v => v.sum) [1, 2] 0 2 = .ok v ∧ v.length = 2 ∧
      binaryVec v ∧
      absLoss (fun v => v.sum) [1, 2] 0 v ≤
        absLoss (fun v => v.sum) [1, 2] 0 (List.replicate 2 1) ∧
      (v = List.replicate 2 1 ∨
        absLoss (fun v => v.sum) [1, 2] 0 v <
          absLoss (fun v => v.sum) [1, 2] 0 (List.replicate 2 1))) ∧
    (∃ v, fsMax (fun v => v.sum) [1, 2] 0 2 = .ok v ∧ v.length = 2 ∧
      binaryVec v ∧
      absLoss (fun v => v.sum) [1, 2] 0 (List.replicate 2 1) ≤
        absLoss (fun v => v.sum) [1, 2] 0 v ∧
      (v = List.replicate 2 1 ∨
        absLoss (fun v => v.sum) [1, 2] 0 (List.replicate 2 1) <
          absLoss (fun v => v.sum) [1, 2] 0 v)) :=
  ⟨forward_selection_greedy_spec.1 [1, 1] [0, 1] (by decide),
   forward_selection_greedy_spec.2.1 (fun v => v.sum) [1, 2] 0 2,
   forward_selection_greedy_spec.2.2 (fun v => v.sum) [1, 2] 0 2⟩

/-- C3 (counterexample): a state reachable by `learn(algorithm='ann')` with
an external Keras learner whose output is `7.3`; `get_selection` rounds it
to `7`, which is not a binary entry, so selections from the `'ann'` branch
are not always binary after rounding. -/
theorem ann_selection_nonbinary_counterexample :
    learn (fun l => l) (SAFE.init "all" 10 none none) "ann" "worst"
        (some (.keras (fun _ => [[(73 : ℚ) / 10]]))) false = .ok exAnnState ∧
    get_selection exAnnState [[1]] = .ok (some [[7]]) ∧
    ¬((7 : ℚ) = 0 ∨ (7 : ℚ) = 1) := by
  refine ⟨by rfl, ?_, by norm_num⟩
  norm_num +decide [get_selection, exAnnState, SAFE.init, npRoundMat, npRound]

/-- C3 (amended): every combinations entry is binary for modes `'all'` and
`'one-by-one'`; after a successful scan in those modes every entry of
`y_worst` and `y_better` is binary; `'knn'` selections are binary whenever
the stored masks are; `'ann'` selections are binary after rounding provided
the learner output lies in `[0, 1]`, as for the sigmoid output layer of the
network the class itself builds. -/
theorem binary_masks_amended :
    (∀ (s s₂ : SAFE),
        s.combinations_mode = "all" ∨ s.combinations_mode = "one-by-one" →
        generateCombination s = .ok s₂ →
        ∀ M, s₂.combinations = some M → binaryMat M) ∧
    (∀ (split : Mat → Vec → ℚ → Option Nat → Mat × Vec) (s s' : SAFE)
        (model : Model) (X : Mat) (y : Vec) (aim : String),
        s.combinations_mode = "all" ∨ s.combinations_mode = "one-by-one" →
        scan split s model X y aim = .ok s' →
        (∀ M, s'.y_worst = some M → binaryMat M) ∧
        (∀ M, s'.y_better = some M → binaryMat M)) ∧
    (∀ (s : SAFE) (t Y data M : Mat),
        s.algorithm = some "knn" → s.learner = some (.kdtree t) →
        s.y = some Y → binaryMat Y →
        get_selection s data = .ok (some M) → binaryMat M) ∧
    (∀ (s : SAFE) (f : Mat → Mat) (data M : Mat),
        s.algorithm = some "ann" → s.learner = some (.keras f) →
        (∀ r ∈ f data, ∀ v ∈ r, 0 ≤ v ∧ v ≤ 1) →
        get_selection s data = .ok (some M) → binaryMat M) := by
  refine ⟨?_, ?_, ?_, ?_⟩
  · rintro s s₂ (hm | hm) hgen M hM
    · rw [generateCombination_all s hm] at hgen
      cases hgen
      rw [← Option.some.inj hM]
      exact binaryMat_allCombinations _
    · rw [generateCombination_one_by_one s hm] at hgen
      cases hgen
      rw [← Option.some.inj hM]
      exact binaryMat_oneByOne _
  · intro split s s' model X y aim hm hok
    have hg : s.combinations_mode ≠ "genetic" := by
      rcases hm with hm | hm <;> rw [hm] <;> decide
    have hf : s.combinations_mode ≠ "forward_selection" := by
      rcases hm with hm | hm <;> rw [hm] <;> decide
    obtain ⟨combs, losses, hcomb, hmode, hX, hyw, hyb, hlen, hrows, hall, hobo⟩ :=
      scan_else_spec split s s' model X y aim hg hf hok
    have hbc : binaryMat combs := by
      rcases hm with hm | hm
      · rw [hall hm]; exact binaryMat_allCombinations _
      · rw [hobo hm]; exact binaryMat_oneByOne _
    constructor
    · intro M hM
      rw [hyw] at hM
      rw [← Option.some.inj hM]
      intro r hr
      obtain ⟨lr, _, rfl⟩ := List.mem_map.mp hr
      exact binaryVec_getD combs hbc _
    · intro M hM
      rw [hyb] at hM
      rw [← Option.some.inj hM]
      intro r hr
      obtain ⟨lr, _, rfl⟩ := List.mem_map.mp hr
      exact binaryVec_getD combs hbc _
  · intro s t Y data M halg hl hy hbin hsel
    rw [get_selection_knn s t Y data halg hl hy] at hsel
    rw [← Option.some.inj (Except.ok.inj hsel)]
    intro r hr
    obtain ⟨q, _, rfl⟩ := List.mem_map.mp hr
    exact binaryVec_getD Y hbin _
  · intro s f data M halg hl hbound hsel
    rw [get_selection_ann s f data halg hl] at hsel
    rw [← Option.some.inj (Except.ok.inj hsel)]
    intro r hr
    unfold npRoundMat at hr
    obtain ⟨row, hrow, rfl⟩ := List.mem_map.mp hr
    intro x hx
    obtain ⟨v, hv, rfl⟩ := List.mem_map.mp hx
    obtain ⟨h0, h1⟩ := hbound row hrow v hv
    exact npRound_binary v h0 h1

/-- Witness for C3 (amended): each of the four conjuncts evaluated at a
concrete state. -/
theorem binary_masks_amended_witness :
    binaryMat [[1], [0]] ∧ binaryMat [[1], [1]] ∧ binaryMat [[1]] ∧
    binaryMat [[0]] := by
  refine ⟨?_, ?_, ?_, ?_⟩
  · exact binary_masks_amended.1
      { SAFE.init "all" 10 none none with n_features := some 1 }
      { SAFE.init "all" 10 none none with
          n_features := some 1, combinations := some [[1], [0]] }
      (Or.inl rfl) (by rfl) [[1], [0]] rfl
  · exact (binary_masks_amended.2.1 exSplitId (SAFE.init "all" 10 none none)
      exScanState exModel [[1], [2]] [0, 0] "worst" (Or.inl rfl)
      (by norm_num +decide [scan, scanPre, splitData, generateCombination,
        allCombinations, npFlip, prodBin, scanBrute, fillLosses, setCol,
        lossCol, npMultiplyRow, npZeros, argmaxFirst, argminFirst, listMax,
        listMin, exScanState, SAFE.init, exModel, exSplitId])).1 [[1], [1]] rfl
  · exact binary_masks_amended.2.2.1 exAccState [[0], [1]] [[1], [0]] [[0]] [[1]]
      rfl rfl rfl (by unfold binaryMat binaryVec; decide)
      (by norm_num +decide [get_selection, exAccState, exKnnLearned, exKnnBase,
        SAFE.init, kdQuery, sqDist, argminFirst, listMin])
  · exact binary_masks_amended.2.2.2 exAnnHalf (fun _ => [[(1 : ℚ) / 2]])
      [[1]] [[0]] rfl rfl
      (by intro r hr v hv; simp at hr hv; rw [hr] at hv; simp at hv;
          rw [hv]; norm_num)
      (by norm_num +decide [get_selection, exAnnHalf, SAFE.init, npRoundMat,
        npRound])

/-- C5: after `learn(algorithm='knn')` with no external learner,
`get_selection` is a nearest-neighbor lookup over the scanned samples: each
query row is mapped to the stored mask of the sample found by the `k = 1`
tree query; whenever one scanned sample is strictly nearest it is the one
returned, and in particular a query equal to a scanned sample of a
duplicate-free scanned set returns that sample's own mask. -/
theorem knn_nearest_neighbor_lookup (fit : Learner → Learner) (s : SAFE)
    (aim : String) (train : Bool) (X Y data : Mat)
    (hX : s.X = some X)
    (hY : (if learnAim s.aim aim = "better" then s.y_better else s.y_worst) =
      some Y) :
    ∃ s', learn fit s "knn" aim none train = .ok s' ∧
      get_selection s' data =
        .ok (some (data.map (fun q => Y.getD (kdQuery X q) []))) ∧
      (∀ (q : Vec) (i : Nat), i < X.length →
        (∀ j, j < X.length → j ≠ i →
          sqDist q (X.getD i []) < sqDist q (X.getD j [])) →
        Y.getD (kdQuery X q) [] = Y.getD i []) ∧
      (∀ i, i < X.length → X.Nodup →
        (∀ r ∈ X, r.length = (X.headD []).length) →
        Y.getD (kdQuery X (X.getD i [])) [] = Y.getD i []) := by
  refine ⟨_, learn_knn_none fit s aim train X hX, ?_, ?_, ?_⟩
  · exact get_selection_knn _ X Y data rfl rfl hY
  · intro q i hi hmin
    rw [kdQuery_unique X q i hi hmin]
  · intro i hi hnodup hlen
    rw [kdQuery_unique X (X.getD i []) i hi ?_]
    intro j hj hne
    rw [sqDist_self]
    apply sqDist_pos
    · have h1 : X.getD i [] ∈ X := getD_mem X i [] hi
      have h2 : X.getD j [] ∈ X := getD_mem X j [] hj
      rw [hlen _ h1, hlen _ h2]
    · intro heq
      apply hne
      rw [List.getD_eq_getElem _ _ hi, List.getD_eq_getElem _ _ hj] at heq
      exact ((List.Nodup.getElem_inj_iff hnodup).mp heq).symm

/-- Witness for C5: learning the two scanned samples `[[0], [1]]` with masks
`[[1], [0]]`. -/
theorem knn_nearest_neighbor_lookup_witness :
    ∃ s', learn (fun l => l) exKnnBase "knn" "worst" none false = .ok s' ∧
      get_selection s' [[0]] =
        .ok (some (([[0]] : Mat).map
          (fun q => ([[1], [0]] : Mat).getD (kdQuery [[0], [1]] q) []))) ∧
      (∀ (q : Vec) (i : Nat), i < ([[0], [1]] : Mat).length →
        (∀ j, j < ([[0], [1]] : Mat).length → j ≠ i →
          sqDist q (([[0], [1]] : Mat).getD i []) <
            sqDist q (([[0], [1]] : Mat).getD j [])) →
        ([[1], [0]] : Mat).getD (kdQuery [[0], [1]] q) [] =
          ([[1], [0]] : Mat).getD i []) ∧
      (∀ i, i < ([[0], [1]] : Mat).length → ([[0], [1]] : Mat).Nodup →
        (∀ r ∈ ([[0], [1]] : Mat),
          r.length = (([[0], [1]] : Mat).headD []).length) →
        ([[1], [0]] : Mat).getD
            (kdQuery [[0], [1]] (([[0], [1]] : Mat).getD i [])) [] =
          ([[1], [0]] : Mat).getD i []) :=
  knn_nearest_neighbor_lookup (fun l => l) exKnnBase "worst" false
    [[0], [1]] [[1], [0]] [[0]] rfl rfl
